import Mathlib

/-!
# QueryExecutorColumns: the column-resolution step of the query executor

A shallow embedding of
`SQLiteStudio3/coreSQLiteStudio/db/queryexecutorsteps/queryexecutorcolumns.cpp`.

* A `QString` is an `Option String`: `none` is the null string, `some s` a
  non-null one. Qt compares a null and an empty string as equal, so every
  comparison goes through `qtext`.
* The collaborators that are not part of the step (the parser, the select
  resolver, identifier quoting, token rebuilding) are the fields of `Env`.
* The step object, the context it points to and the statement returned by
  `getSelect()` form the record `Step`; `exec` maps a `Step` to its return
  value and the `Step` after the call.
-/

namespace QueryExecutorColumns

/-! ## Strings -/

/-- A Qt string: `none` is the null `QString`. -/
abbrev QString := Option String

/-- The characters of a `QString`; a null string has none. -/
def qtext (s : QString) : String := s.getD ""

/-- The method `QString::isNull`. -/
def isNull (s : QString) : Bool := s.isNone

/-- The methods `QList<QString>::contains` and `QStringList::contains` (case
sensitive): Qt's
`operator==` does not tell a null string from an empty one. -/
def qcontains (l : List QString) (a : QString) : Bool :=
  l.any (fun k => qtext k == qtext a)

/-- The test `s.contains(":")`. -/
def containsColon (s : QString) : Bool := (qtext s).data.contains ':'

/-- The value of `s.left(s.indexOf(":"))` for a string that contains a colon: the text before the
first colon. -/
def leftOfColon (s : QString) : QString :=
  some (String.mk ((qtext s).data.takeWhile (fun c => c != ':')))

/-- Case folding of one character, as used by `Qt::CaseInsensitive` comparison
(character by character; the embedding folds the ASCII letters). -/
def foldCase (c : Char) : Char := c.toLower

/-- Case-insensitive equality of two texts. -/
def eqCI (a b : String) : Bool := a.data.map foldCase == b.data.map foldCase

/-- The method `QStringList::contains(name, Qt::CaseInsensitive)`. -/
def containsCI (l : List String) (a : String) : Bool := l.any (fun k => eqCI k a)

/-! ## Data model -/

/-- The enum `QueryExecutor::EditionForbiddenReason`, the statement-level reasons. Only
`NOT_A_SELECT` is used by this step; `OTHER_REASON` stands for the remaining
enumerators, which other steps add. -/
inductive EditionForbiddenReason where
  | NOT_A_SELECT
  | OTHER_REASON (code : Nat)
  deriving DecidableEq

/-- The enum `QueryExecutor::ColumnEditionForbiddenReason`, the enumerators this step uses. -/
inductive ColumnEditionForbiddenReason where
  | EXPRESSION
  | SYSTEM_TABLE
  | COMPOUND_SELECT
  | GROUPED_RESULTS
  | DISTINCT_RESULTS
  deriving DecidableEq

/-- The operator `QSet::operator<<`: insertion into a set, kept as a duplicate-free list. -/
def qsetInsert {α : Type} [DecidableEq α] (s : List α) (a : α) : List α :=
  if a ∈ s then s else s ++ [a]

/-- The enum `SelectResolver::Column::Type`. -/
inductive ColumnType where
  | COLUMN
  | OTHER
  deriving DecidableEq

/-- The bits of `SelectResolver::Column::flags` that the step tests. -/
inductive Flag where
  | FROM_COMPOUND_SELECT
  | FROM_ANONYMOUS_SELECT
  | FROM_DISTINCT_SELECT
  | FROM_GROUPED_SELECT
  deriving DecidableEq

/-- The structure `SelectResolver::Column`, a resolved column (`alias_` is its member `alias`, a
reserved word here, also in the two structures below). `flags` lists the bits that are set,
so `flags & F` is `flags.contains F`. -/
structure Column where
  type : ColumnType
  flags : List Flag
  originalDatabase : QString
  table : QString
  column : QString
  alias_ : QString
  tableAlias : QString
  displayName : QString
  aliasDefinedInSubQuery : Bool
  deriving DecidableEq

/-- The structure `QueryExecutor::ResultColumn`. -/
structure ResultColumn where
  editionForbiddenReasons : List ColumnEditionForbiddenReason
  database : QString
  table : QString
  column : QString
  alias_ : QString
  tableAlias : QString
  displayName : QString
  queryExecutorAlias : QString
  expression : Bool
  deriving DecidableEq

/-- The structure `QueryExecutor::ResultRowIdColumn`: the hash from generated alias to column name,
as the list of its entries in iteration order. -/
structure ResultRowIdColumn where
  queryExecutorAliasToColumn : List (QString × QString)
  deriving DecidableEq

/-- The method `QHash::keys()` on the hash of a row-id column. -/
def ResultRowIdColumn.keys (r : ResultRowIdColumn) : List QString :=
  r.queryExecutorAliasToColumn.map Prod.fst

/-- The class `SqliteExpr`, as far as the step touches it: what the parser built (kept as its
source text) and the two qualifiers the step assigns. -/
structure SqliteExpr where
  source : String
  database : QString
  table : QString
  deriving DecidableEq

/-- The class `SqliteSelect::Core::ResultColumn`. -/
structure CoreResultColumn where
  expr : SqliteExpr
  asKw : Bool
  alias_ : QString
  deriving DecidableEq

/-- The enum `Token::Type`, the kinds the step creates. -/
inductive TokenType where
  | OPERATOR
  | SPACE
  | KEYWORD
  | OTHER
  deriving DecidableEq

/-- The structure `Token`: a kind and its text. -/
structure Token where
  type : TokenType
  value : String
  deriving DecidableEq

abbrev TokenList := List Token

/-- The class `SqliteSelect::Core`, as far as the step touches it. -/
structure Core where
  resultColumns : List CoreResultColumn
  deriving DecidableEq

/-- The class `SqliteSelect`. A parsed SELECT has at least one core, so `coreSelects.first()` is
the field `firstCore` and the remaining cores are `otherCores`. -/
structure SqliteSelect where
  explain : Bool
  firstCore : Core
  otherCores : List Core
  tokens : TokenList
  deriving DecidableEq

/-- The structure `QueryExecutor::Context`, the fields the step reads or writes. `dbNameToAttach`
lists the pairs (database name, attach name) of the bidirectional hash. -/
structure Context where
  editionForbiddenReasons : List EditionForbiddenReason
  dbNameToAttach : List (String × String)
  rowIdColumns : List ResultRowIdColumn
  resultColumns : List ResultColumn
  processedQuery : String
  colNameSeq : Nat
  deriving DecidableEq

/-- What `SelectResolver::resolve(select).first()` and `hasErrors()` report. -/
structure Resolved where
  hasErrors : Bool
  columns : List Column
  deriving DecidableEq

/-- The collaborators of the step that live outside the file. -/
structure Env where
  /-- The function `isSystemTable` of `common/utils_sql.h`. -/
  isSystemTable : String → Bool
  /-- The function `wrapObjIfNeeded(name, dialect)` of `common/utils_sql.h`. -/
  wrapObjIfNeeded : String → String
  /-- The method `Parser::parseExpr`; `none` is the null pointer. -/
  parseExpr : String → Option SqliteExpr
  /-- The select resolver, run on the statement with the context's database mapping. -/
  resolve : List (String × String) → SqliteSelect → Resolved
  /-- The method `SqliteStatement::rebuildTokens`: the tokens of the statement after the edit. -/
  rebuildTokens : SqliteSelect → TokenList
  /-- The method `QueryExecutorStep::wrapSelect(selectTokens, resultColumnsTokens)`. -/
  wrapSelect : TokenList → TokenList → TokenList
  /-- The method `QueryExecutorStep::updateQueries`: the processed query text regenerated from
  the rewritten statement. -/
  updateQueries : SqliteSelect → String

/-- The step object with what it points to: the context, the statement that
`getSelect()` yields (`none` when the query is not a SELECT) and the member
`rowIdColNames`. -/
structure Step where
  context : Context
  select : Option SqliteSelect
  rowIdColNames : List QString
  deriving DecidableEq

/-! ## Helpers of the base class and of the context -/

/-- Modelled from the spec: `QueryExecutorStep::getNextColName`, which is not among the
sources. The spec mints a fresh generated alias from the per-context counter with the
naming scheme `ResCol_<n>`: the name is built from the counter, which is then advanced. -/
def getNextColName (ctx : Context) : QString × Context :=
  (some ("ResCol_" ++ toString ctx.colNameSeq), { ctx with colNameSeq := ctx.colNameSeq + 1 })

/-- Modelled from the spec: `BiStrHash::containsLeft(name, Qt::CaseInsensitive)` of the
bidirectional, case-insensitive database name mapping, which is not among the sources. -/
def containsLeft (m : List (String × String)) (left : String) : Bool :=
  m.any (fun p => eqCI p.1 left)

/-- Modelled from the spec: `BiStrHash::valueByLeft(name, Qt::CaseInsensitive)`, the
attach name paired with the database name; a null string when there is none. -/
def valueByLeft (m : List (String × String)) (left : String) : QString :=
  (m.find? (fun p => eqCI p.1 left)).map Prod.snd

/-- Modelled from the spec: `BiStrHash::containsRight(name, Qt::CaseInsensitive)`. -/
def containsRight (m : List (String × String)) (right : String) : Bool :=
  m.any (fun p => eqCI p.2 right)

/-- Modelled from the spec: `BiStrHash::valueByRight(name, Qt::CaseInsensitive)`. -/
def valueByRight (m : List (String × String)) (right : String) : QString :=
  (m.find? (fun p => eqCI p.2 right)).map Prod.fst

/-! ## The step -/

/-- The member `resolveAttachedDatabases`: the database name that an attach name stands
for, and the name itself when the mapping has no such attach name. -/
def resolveAttachedDatabases (ctx : Context) (dbName : QString) : QString :=
  if containsRight ctx.dbNameToAttach (qtext dbName) then
    valueByRight ctx.dbNameToAttach (qtext dbName)
  else dbName

/-- The member `isRowIdColumnAlias`: the alias is a key of the hash of some row-id
column of the context. -/
def isRowIdColumnAlias (ctx : Context) (a : QString) : Bool :=
  ctx.rowIdColumns.any (fun rowIdColumn => qcontains rowIdColumn.keys a)

/-- The member `isRowIdColumn`: the alias, cut before its first colon, is among
`rowIdColNames`. -/
def isRowIdColumn (rowIdColNames : List QString) (columnAlias : QString) : Bool :=
  let aliasOnly := if containsColon columnAlias then leftOfColon columnAlias else columnAlias
  qcontains rowIdColNames aliasOnly

/-- The reasons that `getResultColumn` gives a column that is not of type `OTHER`. -/
def tableColumnReasons (env : Env) (resolvedColumn : Column) :
    List ColumnEditionForbiddenReason :=
  let r0 : List ColumnEditionForbiddenReason := []
  let r1 := if env.isSystemTable (qtext resolvedColumn.table)
    then qsetInsert r0 .SYSTEM_TABLE else r0
  let r2 := if resolvedColumn.flags.contains .FROM_COMPOUND_SELECT
    then qsetInsert r1 .COMPOUND_SELECT else r1
  let r3 := if resolvedColumn.flags.contains .FROM_GROUPED_SELECT
    then qsetInsert r2 .GROUPED_RESULTS else r2
  if resolvedColumn.flags.contains .FROM_DISTINCT_SELECT
    then qsetInsert r3 .DISTINCT_RESULTS else r3

/-- The first half of `getResultColumn`: the fields copied from the resolved column,
the generated alias still null. -/
def classify (env : Env) (resolvedColumn : Column) : ResultColumn :=
  if resolvedColumn.type = .OTHER then
    { editionForbiddenReasons := qsetInsert [] .EXPRESSION
      database := none
      table := none
      column := resolvedColumn.column
      alias_ := resolvedColumn.alias_
      tableAlias := none
      displayName := resolvedColumn.displayName
      queryExecutorAlias := none
      expression := true }
  else
    { editionForbiddenReasons := tableColumnReasons env resolvedColumn
      database := resolvedColumn.originalDatabase
      table := resolvedColumn.table
      column := resolvedColumn.column
      alias_ := resolvedColumn.alias_
      tableAlias := resolvedColumn.tableAlias
      displayName := resolvedColumn.displayName
      queryExecutorAlias := none
      expression := false }

/-- The member `getResultColumn`: the classified column with its generated alias, and
the context after the call (the alias counter advances when a name is minted). -/
def getResultColumn (env : Env) (ctx : Context) (resolvedColumn : Column) :
    ResultColumn × Context :=
  let resultColumn := classify env resolvedColumn
  if isRowIdColumnAlias ctx resultColumn.alias_ then
    ({ resultColumn with queryExecutorAlias := resultColumn.alias_ }, ctx)
  else
    let next := getNextColName ctx
    ({ resultColumn with queryExecutorAlias := next.1 }, next.2)

/-- The text that `getResultColumnForSelect` hands to the parser. -/
def colString (env : Env) (resultColumn : ResultColumn) (col : Column) : String :=
  let s0 := qtext resultColumn.column
  let s1 := if col.aliasDefinedInSubQuery then qtext col.alias_ else s0
  if !resultColumn.expression then env.wrapObjIfNeeded s1 else s1

/-- The qualification that `getResultColumnForSelect` gives the parsed expression. -/
def qualify (ctx : Context) (resultColumn : ResultColumn) (col : Column)
    (expr : SqliteExpr) : SqliteExpr :=
  if !(col.flags.contains .FROM_ANONYMOUS_SELECT) then
    if !(isNull resultColumn.tableAlias) then
      { expr with table := resultColumn.tableAlias }
    else if !(isNull resultColumn.table) then
      let e1 :=
        if !(isNull resultColumn.database) then
          if containsLeft ctx.dbNameToAttach (qtext resultColumn.database) then
            { expr with database := valueByLeft ctx.dbNameToAttach (qtext resultColumn.database) }
          else
            { expr with database := resultColumn.database }
        else expr
      { e1 with table := resultColumn.table }
    else expr
  else expr

/-- The member `getResultColumnForSelect`; `none` is the null pointer it returns when
the column text does not parse. -/
def getResultColumnForSelect (env : Env) (ctx : Context) (resultColumn : ResultColumn)
    (col : Column) : Option CoreResultColumn :=
  match env.parseExpr (colString env resultColumn col) with
  | none => none
  | some expr =>
    some { expr := qualify ctx resultColumn col expr
           asKw := true
           alias_ := if !(isNull col.alias_) then col.alias_ else resultColumn.queryExecutorAlias }

/-- The loop of `exec` over the resolved columns, on the context and the first core.
The Boolean is `false` when the loop left `exec` through `return false`. -/
def execLoop (env : Env) (rowIdColNames : List QString) :
    List Column → Context → Core → Bool × Context × Core
  | [], ctx, core => (true, ctx, core)
  | col :: rest, ctx, core =>
    let rc := getResultColumn env ctx col
    let rowIdColumn := isRowIdColumn rowIdColNames col.alias_
    if rowIdColumn && containsColon col.alias_ then
      execLoop env rowIdColNames rest rc.2 core
    else
      match getResultColumnForSelect env rc.2 rc.1 col with
      | none => (false, rc.2, core)
      | some resultColumnForSelect =>
        let core1 : Core := { core with resultColumns := core.resultColumns ++ [resultColumnForSelect] }
        let ctx1 : Context :=
          if !rowIdColumn then { rc.2 with resultColumns := rc.2.resultColumns ++ [rc.1] }
          else rc.2
        execLoop env rowIdColNames rest ctx1 core1

/-- The separator `sepTokens` of `wrapWithAliasedColumns`. -/
def sepTokens : TokenList := [⟨.OPERATOR, ","⟩, ⟨.SPACE, " "⟩]

/-- The local variables of `wrapWithAliasedColumns` that its loops update. -/
structure WrapState where
  first : Bool
  outerColumns : TokenList
  columnNamesUsed : List String
  deriving DecidableEq

/-- One pass of the inner loop over the keys of a row-id column. -/
def wrapRowIdAlias (w : WrapState) (a : QString) : WrapState :=
  let outer := if !w.first then w.outerColumns ++ sepTokens else w.outerColumns
  { w with outerColumns := outer ++ [⟨.OTHER, qtext a⟩], first := false }

/-- The first loop of `wrapWithAliasedColumns`, over the row-id columns of the context
and the keys of each. -/
def wrapRowIdColumns (rowIdColumns : List ResultRowIdColumn) (w : WrapState) : WrapState :=
  rowIdColumns.foldl (fun w1 rowIdColumn => rowIdColumn.keys.foldl wrapRowIdAlias w1) w

/-- The template `colNameTpl` applied to a column name and a number. -/
def colNameTpl (column : String) (i : Nat) : String := column ++ ":" ++ toString i

/-- The collision scan `for (int i = 1; columnNamesUsed.contains(colName); i++)`,
from the state `(i, colName)`. The first argument bounds the number of passes; the
scan is started with one more than the number of names used, and no more passes than
that can find their candidate among the names used. -/
def scanColName (used : List String) (column : String) : Nat → Nat → String → String
  | 0, _, colName => colName
  | fuel + 1, i, colName =>
    if containsCI used colName then scanColName used column fuel (i + 1) (colNameTpl column i)
    else colName

/-- The name `baseColName` that `wrapWithAliasedColumns` chooses for a column. -/
def baseColName (resCol : ResultColumn) : QString :=
  if !(isNull resCol.queryExecutorAlias) then resCol.alias_
  else if !resCol.expression then resCol.column
  else none

/-- One pass of the second loop of `wrapWithAliasedColumns`. -/
def wrapResultColumn (env : Env) (w : WrapState) (resCol : ResultColumn) : WrapState :=
  let outer := if !w.first then w.outerColumns ++ sepTokens else w.outerColumns
  let base := baseColName resCol
  if !(isNull base) then
    let colName := scanColName w.columnNamesUsed (qtext resCol.column)
      (w.columnNamesUsed.length + 1) 1 (qtext base)
    { first := false
      columnNamesUsed := w.columnNamesUsed ++ [colName]
      outerColumns := outer ++
        [⟨.OTHER, env.wrapObjIfNeeded colName⟩, ⟨.SPACE, " "⟩, ⟨.KEYWORD, "AS"⟩, ⟨.SPACE, " "⟩,
         ⟨.OTHER, qtext resCol.queryExecutorAlias⟩] }
  else
    { w with outerColumns := outer ++ [⟨.OTHER, qtext resCol.queryExecutorAlias⟩], first := false }

/-- The token list `outerColumns` that `wrapWithAliasedColumns` builds from the
context: the outer column list. -/
def outerColumns (env : Env) (ctx : Context) : TokenList :=
  (ctx.resultColumns.foldl (wrapResultColumn env)
    (wrapRowIdColumns ctx.rowIdColumns ⟨true, [], []⟩)).outerColumns

/-- The member `wrapWithAliasedColumns`. -/
def wrapWithAliasedColumns (env : Env) (ctx : Context) (select : SqliteSelect) : SqliteSelect :=
  { select with tokens := env.wrapSelect select.tokens (outerColumns env ctx) }

/-- The keys of all row-id columns of the context, in the order in which both `exec`
and `wrapWithAliasedColumns` visit them. -/
def rowIdAliases (ctx : Context) : List QString :=
  ctx.rowIdColumns.flatMap (fun r => r.keys)

/-- The member `exec`: its return value and the step after the call. -/
def exec (env : Env) (s : Step) : Bool × Step :=
  let reasons := qsetInsert s.context.editionForbiddenReasons .NOT_A_SELECT
  let notASelect : Bool × Step :=
    (true, { s with context := { s.context with editionForbiddenReasons := reasons } })
  match s.select with
  | none => notASelect
  | some select =>
    if select.explain then notASelect
    else
      let resolver := env.resolve s.context.dbNameToAttach select
      if resolver.hasErrors then (false, s)
      else if resolver.columns.length == 0 then (false, s)
      else
        let core : Core := { select.firstCore with resultColumns := [] }
        let rowIdColNames := s.rowIdColNames ++ rowIdAliases s.context
        match execLoop env rowIdColNames resolver.columns s.context core with
        | (false, ctx1, core1) =>
          (false, { context := ctx1, select := some { select with firstCore := core1 },
                    rowIdColNames := rowIdColNames })
        | (true, ctx1, core1) =>
          let select1 : SqliteSelect := { select with firstCore := core1 }
          let select2 : SqliteSelect := { select1 with tokens := env.rebuildTokens select1 }
          let select3 := wrapWithAliasedColumns env ctx1 select2
          (true, { context := { ctx1 with processedQuery := env.updateQueries select3 },
                   select := some select3, rowIdColNames := rowIdColNames })

/-! ## Reading the outer column list -/

/-- The comma token that starts the separator of the column list. -/
def commaToken : Token := ⟨.OPERATOR, ","⟩

/-- The space token that ends the separator of the column list. -/
def spaceToken : Token := ⟨.SPACE, " "⟩

/-- The first column with the space removed that follows a separating comma. -/
def afterComma : TokenList → TokenList
  | [] => []
  | t :: e => if t = spaceToken then e else t :: e

/-- The runs of tokens between the separators `, ` of a token list. -/
def splitColumns : TokenList → List TokenList
  | [] => [[]]
  | t :: rest =>
    match splitColumns rest with
    | [] => [[t]]
    | e :: es => if t = commaToken then [] :: afterComma e :: es else (t :: e) :: es

/-- The columns of a column list: none for the empty list, otherwise the runs of
tokens between its separators. -/
def columnsOf (toks : TokenList) : List TokenList :=
  if toks.isEmpty then [] else splitColumns toks

/-- The generated aliases that the outer column list projects: every row-id alias,
then the `queryExecutorAlias` of every result column of the context. -/
def generatedAliases (ctx : Context) : List String :=
  (rowIdAliases ctx).map qtext ++ ctx.resultColumns.map (fun rc => qtext rc.queryExecutorAlias)

/-- The alias that a column of the outer list projects: the text of its last token. -/
def projectedAlias (column : TokenList) : Option String :=
  column.getLast?.map Token.value

/-- The number of columns of a column list that consist of exactly the given tokens. -/
def occurrences (column : TokenList) (columns : List TokenList) : Nat :=
  (columns.filter (fun e => decide (e = column))).length

/-- The tokens that the second loop of `wrapWithAliasedColumns` emits for one result
column, the names used so far being `used`. -/
def columnTokens (env : Env) (used : List String) (resCol : ResultColumn) : TokenList :=
  if !(isNull (baseColName resCol)) then
    [⟨.OTHER, env.wrapObjIfNeeded (scanColName used (qtext resCol.column) (used.length + 1) 1
        (qtext (baseColName resCol)))⟩,
      ⟨.SPACE, " "⟩, ⟨.KEYWORD, "AS"⟩, ⟨.SPACE, " "⟩, ⟨.OTHER, qtext resCol.queryExecutorAlias⟩]
  else [⟨.OTHER, qtext resCol.queryExecutorAlias⟩]

/-- The list `columnNamesUsed` after the pass of the second loop for one result column. -/
def namesUsedAfter (used : List String) (resCol : ResultColumn) : List String :=
  if !(isNull (baseColName resCol)) then
    used ++ [scanColName used (qtext resCol.column) (used.length + 1) 1
      (qtext (baseColName resCol))]
  else used

/-- The tokens that the second loop emits for a list of result columns, column by
column, the names used before the first being `used`. -/
def resultColumnEntries (env : Env) : List String → List ResultColumn → List TokenList
  | _, [] => []
  | used, resCol :: rest =>
    columnTokens env used resCol :: resultColumnEntries env (namesUsedAfter used resCol) rest

/-! ## Reading the loop of `exec` -/

/-- The test of `exec` that drops a resolved column: its alias is recognised by
`isRowIdColumn` and contains a colon. -/
def dropped (rowIdColNames : List QString) (col : Column) : Bool :=
  isRowIdColumn rowIdColNames col.alias_ && containsColon col.alias_

/-- Whether the text that `getResultColumnForSelect` builds for a resolved column
parses. -/
def reparses (env : Env) (col : Column) : Bool :=
  (env.parseExpr (colString env (classify env col) col)).isSome

/-- The result column that `getResultColumn` builds for a resolved column when the
alias counter of the context stands at `n`. -/
def resultColumnAt (env : Env) (ctx : Context) (n : Nat) (col : Column) : ResultColumn :=
  { classify env col with
    queryExecutorAlias :=
      if isRowIdColumnAlias ctx col.alias_ then col.alias_
      else some ("ResCol_" ++ toString n) }

/-- The alias counter after `getResultColumn` ran on a resolved column with the counter
at `n`. -/
def seqAfter (ctx : Context) (n : Nat) (col : Column) : Nat :=
  if isRowIdColumnAlias ctx col.alias_ then n else n + 1

/-- The result columns that the loop of `exec` stores in the context for a list of
resolved columns, the alias counter standing at `n` before the first. -/
def storedColumns (env : Env) (rowIdColNames : List QString) (ctx : Context) :
    Nat → List Column → List ResultColumn
  | _, [] => []
  | n, col :: rest =>
    (if isRowIdColumn rowIdColNames col.alias_ then [] else [resultColumnAt env ctx n col]) ++
      storedColumns env rowIdColNames ctx (seqAfter ctx n col) rest

/-- The resolved columns, each paired with the value of the alias counter at which the
loop of `exec` hands it to `getResultColumn`, the counter standing at `n` before the
first. -/
def numbered (ctx : Context) : Nat → List Column → List (Nat × Column)
  | _, [] => []
  | n, col :: rest => (n, col) :: numbered ctx (seqAfter ctx n col) rest

/-- The collision scan of `wrapWithAliasedColumns` as the loop runs, with no bound on
its passes: `ScanHalts used column i colName result` holds when the loop, entered with
the counter at `i` and the candidate `colName`, is left with the name `result`. The loop
is left when the candidate is not among the names used; otherwise a pass replaces the
candidate by the template applied to `i` and advances the counter. -/
inductive ScanHalts (used : List String) (column : String) : Nat → String → String → Prop where
  | stop (i : Nat) (colName : String) :
      containsCI used colName = false → ScanHalts used column i colName colName
  | pass (i : Nat) (colName result : String) :
      containsCI used colName = true →
      ScanHalts used column (i + 1) (colNameTpl column i) result →
      ScanHalts used column i colName result

/-- The text of a name after case folding: two names are equal under case-insensitive
comparison when their folded texts are equal. -/
def ciKey (a : String) : List Char := a.data.map foldCase

/-- The name by which the outer SELECT reads a result column, the names used so far
being `used`: the name emitted in front of `AS`, before quoting, when one is emitted,
and the generated alias otherwise. -/
def readName (used : List String) (resCol : ResultColumn) : String :=
  if !(isNull (baseColName resCol)) then
    scanColName used (qtext resCol.column) (used.length + 1) 1 (qtext (baseColName resCol))
  else qtext resCol.queryExecutorAlias

/-- The number of columns of a column list that project the given alias, that is, whose
last token is the alias. -/
def projections (a : String) (columns : List TokenList) : Nat :=
  (columns.filter (fun c => decide (projectedAlias c = some a))).length

/-! ## Sample inputs -/

/-- An environment for the examples: the resolver reports the given columns without
errors, the parser rejects the empty text only, a name that is not alphanumeric is
quoted in brackets, and the outer statement is `SELECT <columns> FROM (<inner>)`. -/
def sampleEnv (columns : List Column) : Env where
  isSystemTable := fun s => s == "sqlite_master"
  wrapObjIfNeeded := fun s => if s.data.all Char.isAlphanum then s else "[" ++ s ++ "]"
  parseExpr := fun s => if s == "" then none else some ⟨s, none, none⟩
  resolve := fun _ _ => ⟨false, columns⟩
  rebuildTokens := fun sel => sel.tokens
  wrapSelect := fun inner outer =>
    [⟨.KEYWORD, "SELECT"⟩, ⟨.SPACE, " "⟩] ++ outer ++
      [⟨.SPACE, " "⟩, ⟨.KEYWORD, "FROM"⟩, ⟨.SPACE, " "⟩, ⟨.OTHER, "("⟩] ++ inner ++ [⟨.OTHER, ")"⟩]
  updateQueries := fun sel => String.join (sel.tokens.map Token.value)

/-- A resolved table column without a user alias. -/
def sampleColumn (table column : String) : Column :=
  { type := .COLUMN, flags := [], originalDatabase := none, table := some table,
    column := some column, alias_ := none, tableAlias := none, displayName := some column,
    aliasDefinedInSubQuery := false }

/-- A resolved expression without a user alias. -/
def sampleExpression (text : String) : Column :=
  { type := .OTHER, flags := [], originalDatabase := none, table := none,
    column := some text, alias_ := none, tableAlias := none, displayName := some text,
    aliasDefinedInSubQuery := false }

/-- A context with the given row-id columns, no result column yet and the alias counter
at `seq`. -/
def sampleContext (rowIdColumns : List ResultRowIdColumn) (seq : Nat) : Context :=
  { editionForbiddenReasons := [], dbNameToAttach := [], rowIdColumns := rowIdColumns,
    resultColumns := [], processedQuery := "SELECT * FROM t", colNameSeq := seq }

/-- The statement `SELECT * FROM t`, its only result column the star. -/
def sampleSelect : SqliteSelect :=
  { explain := false
    firstCore := ⟨[⟨⟨"*", none, none⟩, false, none⟩]⟩
    otherCores := []
    tokens := [⟨.KEYWORD, "SELECT"⟩, ⟨.SPACE, " "⟩, ⟨.OPERATOR, "*"⟩, ⟨.SPACE, " "⟩,
      ⟨.KEYWORD, "FROM"⟩, ⟨.SPACE, " "⟩, ⟨.OTHER, "t"⟩] }

/-- A step about to run on `sampleSelect`. -/
def sampleStep (rowIdColumns : List ResultRowIdColumn) (seq : Nat) : Step :=
  { context := sampleContext rowIdColumns seq, select := some sampleSelect, rowIdColNames := [] }

/-! # Theorems -/

theorem digitChar_inj : ∀ a < 10, ∀ b < 10, Nat.digitChar a = Nat.digitChar b → a = b := by
  decide

theorem toDigitsCore_acc (fuel : Nat) : ∀ (n : Nat) (ds : List Char),
    Nat.toDigitsCore 10 fuel n ds = Nat.toDigitsCore 10 fuel n [] ++ ds := by
  induction fuel with
  | zero => intro n ds; simp [Nat.toDigitsCore]
  | succ f ih =>
    intro n ds
    simp only [Nat.toDigitsCore]
    by_cases h : n / 10 = 0
    · simp [h]
    · simp only [h, if_false]
      rw [ih (n / 10) (Nat.digitChar (n % 10) :: ds), ih (n / 10) [Nat.digitChar (n % 10)]]
      simp

theorem toDigitsCore_ne_nil (fuel n : Nat) (h : 0 < fuel) :
    Nat.toDigitsCore 10 fuel n [] ≠ [] := by
  cases fuel with
  | zero => omega
  | succ f =>
    simp only [Nat.toDigitsCore]
    by_cases h0 : n / 10 = 0
    · simp [h0]
    · simp only [h0, if_false]
      rw [toDigitsCore_acc]
      simp

theorem toDigitsCore_inj (fuel : Nat) : ∀ (n m f2 : Nat), n < fuel → m < f2 →
    Nat.toDigitsCore 10 fuel n [] = Nat.toDigitsCore 10 f2 m [] → n = m := by
  induction fuel with
  | zero => intro n m f2 h; omega
  | succ f ih =>
    intro n m f2 hn hm heq
    cases f2 with
    | zero => omega
    | succ g =>
      simp only [Nat.toDigitsCore] at heq
      have hdn : n % 10 < 10 := Nat.mod_lt _ (by decide)
      have hdm : m % 10 < 10 := Nat.mod_lt _ (by decide)
      by_cases h1 : n / 10 = 0 <;> by_cases h2 : m / 10 = 0
      · simp only [h1, h2, if_true] at heq
        have := digitChar_inj _ hdn _ hdm (by simpa using heq)
        omega
      · simp only [h1, h2, if_true, if_false] at heq
        rw [toDigitsCore_acc g] at heq
        have hne := toDigitsCore_ne_nil g (m / 10) (by omega)
        have hl := congrArg List.length heq
        simp at hl
        exact absurd hl hne
      · simp only [h1, h2, if_true, if_false] at heq
        rw [toDigitsCore_acc f] at heq
        have hne := toDigitsCore_ne_nil f (n / 10) (by omega)
        have hl := congrArg List.length heq
        simp at hl
        exact absurd hl hne
      · simp only [h1, h2, if_false] at heq
        rw [toDigitsCore_acc f, toDigitsCore_acc g] at heq
        have hh := List.append_inj' heq rfl
        have e1 := ih (n / 10) (m / 10) g (by omega) (by omega) hh.1
        have e2 := digitChar_inj _ hdn _ hdm (by simpa using hh.2)
        omega

theorem toString_nat_inj (n m : Nat) (h : toString n = toString m) : n = m := by
  have h1 : Nat.repr n = Nat.repr m := h
  simp only [Nat.repr, Nat.toDigits, List.asString] at h1
  exact toDigitsCore_inj (n + 1) n m (m + 1) (by omega) (by omega) (by injection h1)

/-! ## Lemmas on the outer column list -/

theorem splitColumns_ne_nil (xs : TokenList) : splitColumns xs ≠ [] := by
  cases xs with
  | nil => simp [splitColumns]
  | cons t rest =>
    simp only [splitColumns]
    split
    · simp
    · split <;> simp

theorem splitColumns_cons (t : Token) (rest : TokenList) :
    ∃ e es, splitColumns rest = e :: es ∧
      splitColumns (t :: rest) =
        if t = commaToken then [] :: afterComma e :: es else (t :: e) :: es := by
  cases h : splitColumns rest with
  | nil => exact absurd h (splitColumns_ne_nil rest)
  | cons e es => exact ⟨e, es, rfl, by simp only [splitColumns, h]⟩

theorem splitColumns_commaFree (e : TokenList) (h : ∀ t ∈ e, t ≠ commaToken) :
    splitColumns e = [e] := by
  induction e with
  | nil => rfl
  | cons t rest ih =>
    have hrest := ih (fun x hx => h x (List.mem_cons_of_mem _ hx))
    have ht : t ≠ commaToken := h t (List.mem_cons_self _ _)
    simp only [splitColumns, hrest, ht, if_false]

theorem splitColumns_sep (e : TokenList) (h : ∀ t ∈ e, t ≠ commaToken) :
    splitColumns (sepTokens ++ e) = [[], e] := by
  have h1 : splitColumns (spaceToken :: e) = [spaceToken :: e] :=
    splitColumns_commaFree _ (by
      intro t ht
      rcases List.mem_cons.mp ht with rfl | ht
      · decide
      · exact h t ht)
  show splitColumns (commaToken :: spaceToken :: e) = [[], e]
  rw [splitColumns, h1]
  simp [afterComma]

theorem splitColumns_append_sep (xs e : TokenList) (h : ∀ t ∈ e, t ≠ commaToken) :
    splitColumns (xs ++ sepTokens ++ e) = splitColumns xs ++ [e] := by
  induction xs with
  | nil => simpa [splitColumns] using splitColumns_sep e h
  | cons t rest ih =>
    obtain ⟨hd, tl, h1, h2⟩ := splitColumns_cons t rest
    have h3 : splitColumns (rest ++ sepTokens ++ e) = hd :: (tl ++ [e]) := by
      rw [ih, h1]; rfl
    have h4 : splitColumns (t :: (rest ++ sepTokens ++ e)) =
        if t = commaToken then [] :: afterComma hd :: (tl ++ [e]) else (t :: hd) :: (tl ++ [e]) := by
      simp only [splitColumns, h3]
    have h5 : t :: rest ++ sepTokens ++ e = t :: (rest ++ sepTokens ++ e) := by simp
    rw [h5, h4, h2]
    split <;> simp

/-- Appending one more column to the list under construction, the way both loops of
`wrapWithAliasedColumns` do, adds exactly that column to the columns of the list. -/
theorem columnsOf_add (first : Bool) (outer e : TokenList)
    (hfirst : first = true ↔ outer = []) (hne : e ≠ [])
    (h : ∀ t ∈ e, t ≠ commaToken) :
    columnsOf ((if !first then outer ++ sepTokens else outer) ++ e) = columnsOf outer ++ [e] ∧
    (if !first then outer ++ sepTokens else outer) ++ e ≠ [] := by
  refine ⟨?_, by simp [hne]⟩
  cases first with
  | true =>
    have : outer = [] := hfirst.mp rfl
    subst this
    cases e with
    | nil => exact absurd rfl hne
    | cons t rest => simp [columnsOf, splitColumns_commaFree _ h]
  | false =>
    have ho : outer ≠ [] := fun h0 => by simpa using hfirst.mpr h0
    cases outer with
    | nil => exact absurd rfl ho
    | cons t rest =>
      have hh := splitColumns_append_sep (t :: rest) e h
      have h1 : columnsOf (t :: rest ++ sepTokens ++ e) = splitColumns (t :: rest ++ sepTokens ++ e) := by
        simp [columnsOf]
      have h2 : columnsOf (t :: rest) = splitColumns (t :: rest) := by
        simp [columnsOf]
      simp only [Bool.not_false, if_true]
      rw [h1, hh, h2]

theorem wrapResultColumn_eq (env : Env) (w : WrapState) (resCol : ResultColumn) :
    wrapResultColumn env w resCol =
      { first := false
        outerColumns := (if !w.first then w.outerColumns ++ sepTokens else w.outerColumns) ++
          columnTokens env w.columnNamesUsed resCol
        columnNamesUsed := namesUsedAfter w.columnNamesUsed resCol } := by
  unfold wrapResultColumn columnTokens namesUsedAfter
  by_cases h : isNull (baseColName resCol) = true
  · simp [h]
  · simp [h]

theorem columnTokens_ne_nil (env : Env) (used : List String) (resCol : ResultColumn) :
    columnTokens env used resCol ≠ [] := by
  unfold columnTokens
  split <;> simp

theorem columnTokens_commaFree (env : Env) (used : List String) (resCol : ResultColumn) :
    ∀ t ∈ columnTokens env used resCol, t ≠ commaToken := by
  unfold columnTokens
  split <;> simp [commaToken]

theorem wrapRowIdAlias_fold (keys : List QString) : ∀ (w : WrapState),
    (w.first = true ↔ w.outerColumns = []) →
    ((keys.foldl wrapRowIdAlias w).first = true ↔ (keys.foldl wrapRowIdAlias w).outerColumns = []) ∧
    columnsOf (keys.foldl wrapRowIdAlias w).outerColumns =
      columnsOf w.outerColumns ++ keys.map (fun a => [(⟨.OTHER, qtext a⟩ : Token)]) ∧
    (keys.foldl wrapRowIdAlias w).columnNamesUsed = w.columnNamesUsed := by
  induction keys with
  | nil => intro w hw; simp [hw]
  | cons a rest ih =>
    intro w hw
    have hadd := columnsOf_add w.first w.outerColumns [⟨.OTHER, qtext a⟩] hw (by simp)
      (by simp [commaToken])
    have hw1 : ((wrapRowIdAlias w a).first = true ↔ (wrapRowIdAlias w a).outerColumns = []) := by
      simp only [wrapRowIdAlias]
      constructor
      · intro h; cases h
      · intro h; exact absurd h hadd.2
    obtain ⟨i1, i2, i3⟩ := ih (wrapRowIdAlias w a) hw1
    refine ⟨by simpa using i1, ?_, ?_⟩
    · simp only [List.foldl_cons, i2]
      simp only [wrapRowIdAlias, hadd.1]
      simp
    · simp only [List.foldl_cons, i3]
      simp [wrapRowIdAlias]

theorem wrapRowIdColumns_fold (cols : List ResultRowIdColumn) : ∀ (w : WrapState),
    (w.first = true ↔ w.outerColumns = []) →
    ((wrapRowIdColumns cols w).first = true ↔ (wrapRowIdColumns cols w).outerColumns = []) ∧
    columnsOf (wrapRowIdColumns cols w).outerColumns =
      columnsOf w.outerColumns ++
        (cols.flatMap (fun r => r.keys)).map (fun a => [(⟨.OTHER, qtext a⟩ : Token)]) ∧
    (wrapRowIdColumns cols w).columnNamesUsed = w.columnNamesUsed := by
  induction cols with
  | nil => intro w hw; simp [wrapRowIdColumns, hw]
  | cons r rest ih =>
    intro w hw
    obtain ⟨k1, k2, k3⟩ := wrapRowIdAlias_fold r.keys w hw
    obtain ⟨i1, i2, i3⟩ := ih (r.keys.foldl wrapRowIdAlias w) k1
    have hstep : wrapRowIdColumns (r :: rest) w =
        wrapRowIdColumns rest (r.keys.foldl wrapRowIdAlias w) := by
      simp [wrapRowIdColumns]
    rw [hstep]
    refine ⟨i1, ?_, ?_⟩
    · rw [i2, k2]; simp
    · rw [i3, k3]

theorem wrapResultColumn_fold (env : Env) (rcs : List ResultColumn) : ∀ (w : WrapState),
    (w.first = true ↔ w.outerColumns = []) →
    columnsOf (rcs.foldl (wrapResultColumn env) w).outerColumns =
      columnsOf w.outerColumns ++ resultColumnEntries env w.columnNamesUsed rcs := by
  induction rcs with
  | nil => intro w _; simp [resultColumnEntries]
  | cons rc rest ih =>
    intro w hw
    have hadd := columnsOf_add w.first w.outerColumns (columnTokens env w.columnNamesUsed rc) hw
      (columnTokens_ne_nil env _ rc) (columnTokens_commaFree env _ rc)
    have hw1 : ((wrapResultColumn env w rc).first = true ↔
        (wrapResultColumn env w rc).outerColumns = []) := by
      rw [wrapResultColumn_eq]
      constructor
      · intro h; cases h
      · intro h; exact absurd h hadd.2
    have := ih (wrapResultColumn env w rc) hw1
    simp only [List.foldl_cons, this]
    rw [wrapResultColumn_eq]
    simp only [hadd.1, resultColumnEntries]
    simp

/-- The columns of the outer column list: one single-token column per row-id alias,
then the tokens of each result column of the context. -/
theorem columnsOf_outerColumns (env : Env) (ctx : Context) :
    columnsOf (outerColumns env ctx) =
      (rowIdAliases ctx).map (fun a => [(⟨.OTHER, qtext a⟩ : Token)]) ++
        resultColumnEntries env [] ctx.resultColumns := by
  have h0 : ((⟨true, [], []⟩ : WrapState).first = true ↔
      (⟨true, [], []⟩ : WrapState).outerColumns = []) := by simp
  obtain ⟨k1, k2, k3⟩ := wrapRowIdColumns_fold ctx.rowIdColumns ⟨true, [], []⟩ h0
  have := wrapResultColumn_fold env ctx.resultColumns _ k1
  unfold outerColumns
  rw [this, k2, k3]
  simp [columnsOf, rowIdAliases]

theorem resultColumnEntries_length (env : Env) (rcs : List ResultColumn) :
    ∀ used, (resultColumnEntries env used rcs).length = rcs.length := by
  induction rcs with
  | nil => intro used; rfl
  | cons rc rest ih => intro used; simp [resultColumnEntries, ih]

theorem projectedAlias_columnTokens (env : Env) (used : List String) (rc : ResultColumn) :
    projectedAlias (columnTokens env used rc) = some (qtext rc.queryExecutorAlias) := by
  unfold columnTokens projectedAlias
  split <;> simp

theorem resultColumnEntries_projected (env : Env) (rcs : List ResultColumn) :
    ∀ used, (resultColumnEntries env used rcs).map projectedAlias =
      rcs.map (fun rc => some (qtext rc.queryExecutorAlias)) := by
  induction rcs with
  | nil => intro used; rfl
  | cons rc rest ih =>
    intro used
    simp [resultColumnEntries, ih, projectedAlias_columnTokens]

/-- The aliases projected by the columns of the outer list are the generated aliases. -/
theorem projected_outerColumns (env : Env) (ctx : Context) :
    (columnsOf (outerColumns env ctx)).map projectedAlias = (generatedAliases ctx).map some := by
  rw [columnsOf_outerColumns]
  simp [generatedAliases, resultColumnEntries_projected, projectedAlias, Function.comp_def]

/-! ## Lemmas on the loop of `exec` -/

theorem classify_alias (env : Env) (col : Column) : (classify env col).alias_ = col.alias_ := by
  unfold classify; split <;> rfl

theorem classify_column (env : Env) (col : Column) : (classify env col).column = col.column := by
  unfold classify; split <;> rfl

theorem isRowIdColumnAlias_congr {ctx1 ctx2 : Context}
    (h : ctx1.rowIdColumns = ctx2.rowIdColumns) (a : QString) :
    isRowIdColumnAlias ctx1 a = isRowIdColumnAlias ctx2 a := by
  simp [isRowIdColumnAlias, h]

theorem getResultColumn_eq (env : Env) (ctx : Context) (col : Column) :
    getResultColumn env ctx col =
      (resultColumnAt env ctx ctx.colNameSeq col,
        { ctx with colNameSeq := seqAfter ctx ctx.colNameSeq col }) := by
  simp only [getResultColumn, resultColumnAt, seqAfter, getNextColName, classify_alias]
  by_cases h : isRowIdColumnAlias ctx col.alias_ = true
  · simp [h]
  · simp [h]

theorem resultColumnAt_congr (env : Env) {ctx1 ctx2 : Context}
    (h : ctx1.rowIdColumns = ctx2.rowIdColumns) (n : Nat) (col : Column) :
    resultColumnAt env ctx1 n col = resultColumnAt env ctx2 n col := by
  simp [resultColumnAt, isRowIdColumnAlias_congr h]

theorem seqAfter_congr {ctx1 ctx2 : Context}
    (h : ctx1.rowIdColumns = ctx2.rowIdColumns) (n : Nat) (col : Column) :
    seqAfter ctx1 n col = seqAfter ctx2 n col := by
  simp [seqAfter, isRowIdColumnAlias_congr h]

theorem colString_resultColumnAt (env : Env) (ctx : Context) (n : Nat) (col : Column) :
    colString env (resultColumnAt env ctx n col) col = colString env (classify env col) col := by
  rfl

theorem getResultColumnForSelect_isSome (env : Env) (ctx ctx1 : Context) (n : Nat)
    (col : Column) :
    (getResultColumnForSelect env ctx (resultColumnAt env ctx1 n col) col).isSome =
      reparses env col := by
  unfold getResultColumnForSelect reparses
  rw [colString_resultColumnAt]
  cases env.parseExpr (colString env (classify env col) col) <;> rfl

theorem execLoop_cons (env : Env) (names : List QString) (col : Column) (rest : List Column)
    (ctx : Context) (core : Core) :
    execLoop env names (col :: rest) ctx core =
      if dropped names col then
        execLoop env names rest { ctx with colNameSeq := seqAfter ctx ctx.colNameSeq col } core
      else
        match getResultColumnForSelect env
            { ctx with colNameSeq := seqAfter ctx ctx.colNameSeq col }
            (resultColumnAt env ctx ctx.colNameSeq col) col with
        | none => (false, { ctx with colNameSeq := seqAfter ctx ctx.colNameSeq col }, core)
        | some r =>
          execLoop env names rest
            (if !(isRowIdColumn names col.alias_) then
              { ctx with colNameSeq := seqAfter ctx ctx.colNameSeq col,
                         resultColumns := ctx.resultColumns ++
                           [resultColumnAt env ctx ctx.colNameSeq col] }
             else { ctx with colNameSeq := seqAfter ctx ctx.colNameSeq col })
            { core with resultColumns := core.resultColumns ++ [r] } := by
  rw [execLoop, getResultColumn_eq]
  rfl

/-- The loop of `exec` touches the alias counter and the result column list of the
context and nothing else of it. -/
theorem execLoop_frame (env : Env) (names : List QString) (cols : List Column) :
    ∀ (ctx : Context) (core : Core),
      (execLoop env names cols ctx core).2.1.rowIdColumns = ctx.rowIdColumns ∧
      (execLoop env names cols ctx core).2.1.dbNameToAttach = ctx.dbNameToAttach ∧
      (execLoop env names cols ctx core).2.1.processedQuery = ctx.processedQuery ∧
      (execLoop env names cols ctx core).2.1.editionForbiddenReasons =
        ctx.editionForbiddenReasons := by
  induction cols with
  | nil => intro ctx core; simp [execLoop]
  | cons col rest ih =>
    intro ctx core
    rw [execLoop_cons]
    split
    · exact ih _ _
    · split
      · simp
      · split <;> exact ih _ _

/-- On success the context holds its former result columns followed by the stored
columns of the resolved columns. -/
theorem execLoop_stored (env : Env) (names : List QString) (ctx0 : Context)
    (cols : List Column) :
    ∀ (ctx : Context) (core : Core), ctx.rowIdColumns = ctx0.rowIdColumns →
      (execLoop env names cols ctx core).1 = true →
      (execLoop env names cols ctx core).2.1.resultColumns =
        ctx.resultColumns ++ storedColumns env names ctx0 ctx.colNameSeq cols := by
  induction cols with
  | nil => intro ctx core _ _; simp [execLoop, storedColumns]
  | cons col rest ih =>
    intro ctx core hctx hok
    rw [execLoop_cons] at hok ⊢
    have hs := seqAfter_congr hctx ctx.colNameSeq col
    have hr := resultColumnAt_congr env hctx ctx.colNameSeq col
    by_cases hd : dropped names col = true
    · have hrow : isRowIdColumn names col.alias_ = true := by
        simp only [dropped, Bool.and_eq_true] at hd; exact hd.1
      simp only [hd, if_true] at hok ⊢
      rw [ih _ core (by simpa using hctx) hok]
      simp [storedColumns, hrow, hs]
    · simp only [hd] at hok ⊢
      simp only [Bool.false_eq_true, if_false] at hok ⊢
      split at hok
      · simp at hok
      · rename_i r hr1
        by_cases hrow : isRowIdColumn names col.alias_ = true
        · simp only [hrow, Bool.not_true, Bool.false_eq_true, if_false] at hok ⊢
          rw [ih _ _ (by simpa using hctx) hok]
          simp [storedColumns, hrow, hs]
        · simp only [hrow, Bool.not_false, if_true] at hok ⊢
          rw [ih _ _ (by simpa using hctx) hok]
          simp [storedColumns, hrow, hs, hr]

/-! ## Lemmas on `exec` -/

theorem exec_loop_false (env : Env) (s : Step) (sel : SqliteSelect)
    (hsel : s.select = some sel) (hx : sel.explain = false)
    (herr : (env.resolve s.context.dbNameToAttach sel).hasErrors = false)
    (hcols : (env.resolve s.context.dbNameToAttach sel).columns ≠ [])
    (hloop : (execLoop env (s.rowIdColNames ++ rowIdAliases s.context)
      (env.resolve s.context.dbNameToAttach sel).columns s.context ⟨[]⟩).1 = false) :
    exec env s =
      (false,
        { context := (execLoop env (s.rowIdColNames ++ rowIdAliases s.context)
            (env.resolve s.context.dbNameToAttach sel).columns s.context ⟨[]⟩).2.1
          select := some { sel with firstCore :=
            (execLoop env (s.rowIdColNames ++ rowIdAliases s.context)
              (env.resolve s.context.dbNameToAttach sel).columns s.context ⟨[]⟩).2.2 }
          rowIdColNames := s.rowIdColNames ++ rowIdAliases s.context }) := by
  have hlen : ((env.resolve s.context.dbNameToAttach sel).columns.length == 0) = false := by
    cases h : (env.resolve s.context.dbNameToAttach sel).columns with
    | nil => exact absurd h hcols
    | cons a l => rfl
  simp only [exec, hsel, hx, herr, hlen, Bool.false_eq_true, if_false]
  generalize execLoop env (s.rowIdColNames ++ rowIdAliases s.context)
      (env.resolve s.context.dbNameToAttach sel).columns s.context ⟨[]⟩ = r at hloop ⊢
  obtain ⟨b, c, k⟩ := r
  simp only at hloop
  subst hloop
  rfl

theorem exec_loop_true (env : Env) (s : Step) (sel : SqliteSelect)
    (hsel : s.select = some sel) (hx : sel.explain = false)
    (herr : (env.resolve s.context.dbNameToAttach sel).hasErrors = false)
    (hcols : (env.resolve s.context.dbNameToAttach sel).columns ≠ [])
    (hloop : (execLoop env (s.rowIdColNames ++ rowIdAliases s.context)
      (env.resolve s.context.dbNameToAttach sel).columns s.context ⟨[]⟩).1 = true) :
    (exec env s).1 = true ∧
    (exec env s).2.context.resultColumns =
      (execLoop env (s.rowIdColNames ++ rowIdAliases s.context)
        (env.resolve s.context.dbNameToAttach sel).columns s.context ⟨[]⟩).2.1.resultColumns ∧
    (exec env s).2.context.rowIdColumns =
      (execLoop env (s.rowIdColNames ++ rowIdAliases s.context)
        (env.resolve s.context.dbNameToAttach sel).columns s.context ⟨[]⟩).2.1.rowIdColumns ∧
    ∃ inner, (exec env s).2.select =
      some (wrapWithAliasedColumns env
        (execLoop env (s.rowIdColNames ++ rowIdAliases s.context)
          (env.resolve s.context.dbNameToAttach sel).columns s.context ⟨[]⟩).2.1 inner) := by
  have hlen : ((env.resolve s.context.dbNameToAttach sel).columns.length == 0) = false := by
    cases h : (env.resolve s.context.dbNameToAttach sel).columns with
    | nil => exact absurd h hcols
    | cons a l => rfl
  simp only [exec, hsel, hx, herr, hlen, Bool.false_eq_true, if_false]
  generalize execLoop env (s.rowIdColNames ++ rowIdAliases s.context)
      (env.resolve s.context.dbNameToAttach sel).columns s.context ⟨[]⟩ = r at hloop ⊢
  obtain ⟨b, c, k⟩ := r
  simp only at hloop
  subst hloop
  exact ⟨rfl, rfl, rfl, _, rfl⟩

/-- A successful `exec` on a SELECT without EXPLAIN went through the whole loop. -/
theorem exec_true_loop (env : Env) (s : Step) (sel : SqliteSelect)
    (hsel : s.select = some sel) (hx : sel.explain = false)
    (hok : (exec env s).1 = true) :
    (env.resolve s.context.dbNameToAttach sel).hasErrors = false ∧
    (env.resolve s.context.dbNameToAttach sel).columns ≠ [] ∧
    (execLoop env (s.rowIdColNames ++ rowIdAliases s.context)
      (env.resolve s.context.dbNameToAttach sel).columns s.context ⟨[]⟩).1 = true := by
  by_cases herr : (env.resolve s.context.dbNameToAttach sel).hasErrors = true
  · simp [exec, hsel, hx, herr] at hok
  · have herr1 : (env.resolve s.context.dbNameToAttach sel).hasErrors = false := by
      simpa using herr
    by_cases hcols : (env.resolve s.context.dbNameToAttach sel).columns = []
    · simp [exec, hsel, hx, herr1, hcols] at hok
    · refine ⟨herr1, hcols, ?_⟩
      by_contra hl
      have hl1 : (execLoop env (s.rowIdColNames ++ rowIdAliases s.context)
          (env.resolve s.context.dbNameToAttach sel).columns s.context ⟨[]⟩).1 = false := by
        simpa using hl
      rw [exec_loop_false env s sel hsel hx herr1 hcols hl1] at hok
      simp at hok

/-- The loop of `exec` stops at the first resolved column that is not dropped and whose
text does not parse: it returns `false` with the context and the core as the columns
before that one left them, the alias counter advanced for the failing column. -/
theorem execLoop_fail (env : Env) (names : List QString) (cols : List Column) :
    ∀ (ctx : Context) (core : Core),
      (∃ col ∈ cols, dropped names col = false ∧ reparses env col = false) →
      ∃ pre bad post ctxP coreP,
        cols = pre ++ bad :: post ∧
        (∀ c ∈ pre, dropped names c = true ∨ reparses env c = true) ∧
        dropped names bad = false ∧ reparses env bad = false ∧
        execLoop env names pre ctx core = (true, ctxP, coreP) ∧
        execLoop env names cols ctx core = (false, (getResultColumn env ctxP bad).2, coreP) := by
  induction cols with
  | nil => intro ctx core h; obtain ⟨c, hc, _⟩ := h; cases hc
  | cons col rest ih =>
    intro ctx core h
    obtain ⟨c, hc, hcd, hcr⟩ := h
    by_cases hd : dropped names col = true
    · have hin : c ∈ rest := by
        rcases List.mem_cons.mp hc with rfl | h1
        · rw [hd] at hcd; cases hcd
        · exact h1
      obtain ⟨pre, bad, post, ctxP, coreP, h1, h2, h3, h4, h5, h6⟩ :=
        ih { ctx with colNameSeq := seqAfter ctx ctx.colNameSeq col } core ⟨c, hin, hcd, hcr⟩
      refine ⟨col :: pre, bad, post, ctxP, coreP, by simp [h1], ?_, h3, h4, ?_, ?_⟩
      · intro x hx
        rcases List.mem_cons.mp hx with rfl | hx
        · exact Or.inl hd
        · exact h2 x hx
      · rw [execLoop_cons, if_pos hd]; exact h5
      · rw [execLoop_cons, if_pos hd]; exact h6
    · have hd1 : dropped names col = false := by simpa using hd
      by_cases hp : reparses env col = true
      · have hin : c ∈ rest := by
          rcases List.mem_cons.mp hc with rfl | h1
          · rw [hp] at hcr; cases hcr
          · exact h1
        have hsome := getResultColumnForSelect_isSome env
          { ctx with colNameSeq := seqAfter ctx ctx.colNameSeq col } ctx ctx.colNameSeq col
        rw [hp] at hsome
        obtain ⟨r, hr⟩ := Option.isSome_iff_exists.mp hsome
        obtain ⟨pre, bad, post, ctxP, coreP, h1, h2, h3, h4, h5, h6⟩ :=
          ih (if !(isRowIdColumn names col.alias_) then
              { ctx with colNameSeq := seqAfter ctx ctx.colNameSeq col,
                         resultColumns := ctx.resultColumns ++
                           [resultColumnAt env ctx ctx.colNameSeq col] }
             else { ctx with colNameSeq := seqAfter ctx ctx.colNameSeq col })
            { core with resultColumns := core.resultColumns ++ [r] } ⟨c, hin, hcd, hcr⟩
        refine ⟨col :: pre, bad, post, ctxP, coreP, by simp [h1], ?_, h3, h4, ?_, ?_⟩
        · intro x hx
          rcases List.mem_cons.mp hx with rfl | hx
          · exact Or.inr hp
          · exact h2 x hx
        · rw [execLoop_cons, if_neg hd, hr]; exact h5
        · rw [execLoop_cons, if_neg hd, hr]; exact h6
      · have hp1 : reparses env col = false := by simpa using hp
        have hsome := getResultColumnForSelect_isSome env
          { ctx with colNameSeq := seqAfter ctx ctx.colNameSeq col } ctx ctx.colNameSeq col
        rw [hp1] at hsome
        have hnone : getResultColumnForSelect env
            { ctx with colNameSeq := seqAfter ctx ctx.colNameSeq col }
            (resultColumnAt env ctx ctx.colNameSeq col) col = none := by
          cases h : getResultColumnForSelect env
            { ctx with colNameSeq := seqAfter ctx ctx.colNameSeq col }
            (resultColumnAt env ctx ctx.colNameSeq col) col with
          | none => rfl
          | some r => rw [h] at hsome; cases hsome
        refine ⟨[], col, rest, ctx, core, rfl, ?_, hd1, hp1, rfl, ?_⟩
        · intro x hx; cases hx
        · rw [execLoop_cons, if_neg hd, hnone, getResultColumn_eq]

theorem outerColumns_congr (env : Env) {ctx1 ctx2 : Context}
    (h1 : ctx1.rowIdColumns = ctx2.rowIdColumns) (h2 : ctx1.resultColumns = ctx2.resultColumns) :
    outerColumns env ctx1 = outerColumns env ctx2 := by
  simp [outerColumns, h1, h2]

/-- A successful `exec` on a SELECT without EXPLAIN keeps the row-id columns of the
context, appends the stored columns of the resolved columns to its result columns and
leaves a statement whose tokens are the wrapping of the outer column list of the final
context. -/
theorem exec_success (env : Env) (s : Step) (sel : SqliteSelect)
    (hsel : s.select = some sel) (hx : sel.explain = false)
    (hok : (exec env s).1 = true) :
    (exec env s).2.context.rowIdColumns = s.context.rowIdColumns ∧
    (exec env s).2.context.resultColumns =
      s.context.resultColumns ++
        storedColumns env (s.rowIdColNames ++ rowIdAliases s.context) s.context
          s.context.colNameSeq (env.resolve s.context.dbNameToAttach sel).columns ∧
    ∃ inner : SqliteSelect, (exec env s).2.select = some (wrapWithAliasedColumns env
      (exec env s).2.context inner) := by
  obtain ⟨herr, hcols, hloop⟩ := exec_true_loop env s sel hsel hx hok
  obtain ⟨_, h2, h3, inner, h4⟩ := exec_loop_true env s sel hsel hx herr hcols hloop
  have hframe := execLoop_frame env (s.rowIdColNames ++ rowIdAliases s.context)
      (env.resolve s.context.dbNameToAttach sel).columns s.context ⟨[]⟩
  have hstored := execLoop_stored env (s.rowIdColNames ++ rowIdAliases s.context) s.context
      (env.resolve s.context.dbNameToAttach sel).columns s.context ⟨[]⟩ rfl hloop
  refine ⟨by rw [h3, hframe.1], by rw [h2, hstored], inner, ?_⟩
  rw [h4]
  simp only [wrapWithAliasedColumns, outerColumns_congr env h3 h2]

theorem rowIdAliases_congr {ctx1 ctx2 : Context} (h : ctx1.rowIdColumns = ctx2.rowIdColumns) :
    rowIdAliases ctx1 = rowIdAliases ctx2 := by
  simp [rowIdAliases, h]

theorem qcontains_iff (l : List QString) (a : QString) :
    qcontains l a = true ↔ ∃ k ∈ l, qtext k = qtext a := by
  simp [qcontains]

theorem isRowIdColumnAlias_iff (ctx : Context) (a : QString) :
    isRowIdColumnAlias ctx a = true ↔ ∃ k ∈ rowIdAliases ctx, qtext k = qtext a := by
  simp only [isRowIdColumnAlias, rowIdAliases, List.any_eq_true, qcontains_iff, List.mem_flatMap]
  constructor
  · rintro ⟨r, hr, k, hk, hka⟩; exact ⟨k, ⟨r, hr, hk⟩, hka⟩
  · rintro ⟨k, ⟨r, hr, hk⟩, hka⟩; exact ⟨r, hr, k, hk, hka⟩

theorem containsColon_congr {a b : QString} (h : qtext a = qtext b) :
    containsColon a = containsColon b := by
  simp [containsColon, h]

/-- An alias without a colon that `isRowIdColumnAlias` recognises is recognised by
`isRowIdColumn` as well, once `rowIdColNames` holds the keys of the row-id columns. -/
theorem isRowIdColumn_of_alias (ctx : Context) (names : List QString) (a : QString)
    (h : isRowIdColumnAlias ctx a = true) (hc : containsColon a = false) :
    isRowIdColumn (names ++ rowIdAliases ctx) a = true := by
  obtain ⟨k, hk, hka⟩ := (isRowIdColumnAlias_iff ctx a).mp h
  simp only [isRowIdColumn, hc, Bool.false_eq_true, if_false]
  exact (qcontains_iff _ _).mpr ⟨k, List.mem_append_right _ hk, hka⟩

/-- The name that `getNextColName` mints when the counter stands at `n`. -/
theorem fresh_inj (n m : Nat) (h : "ResCol_" ++ toString n = "ResCol_" ++ toString m) :
    n = m := by
  apply toString_nat_inj
  have h1 := congrArg String.data h
  simp only [String.data_append] at h1
  exact String.ext (List.append_cancel_left h1)

/-- The generated aliases of the stored columns are freshly minted names with increasing
numbers, provided every alias that `isRowIdColumnAlias` recognises is recognised by
`isRowIdColumn`. -/
theorem storedColumns_fresh (env : Env) (names : List QString) (ctx : Context)
    (hrec : ∀ a, isRowIdColumnAlias ctx a = true → isRowIdColumn names a = true)
    (cols : List Column) :
    ∀ n, ∃ ms : List Nat,
      (storedColumns env names ctx n cols).map (fun rc => qtext rc.queryExecutorAlias) =
        ms.map (fun m => "ResCol_" ++ toString m) ∧
      ms.Pairwise (fun a b => a < b) ∧ ∀ m ∈ ms, n ≤ m := by
  induction cols with
  | nil => intro n; exact ⟨[], by simp [storedColumns], List.Pairwise.nil, by simp⟩
  | cons col rest ih =>
    intro n
    obtain ⟨ms, h1, h2, h3⟩ := ih (seqAfter ctx n col)
    have hseq : n ≤ seqAfter ctx n col := by
      unfold seqAfter; split <;> omega
    by_cases hrow : isRowIdColumn names col.alias_ = true
    · refine ⟨ms, ?_, h2, fun m hm => le_trans hseq (h3 m hm)⟩
      simp [storedColumns, hrow, h1]
    · have hnot : isRowIdColumnAlias ctx col.alias_ = false := by
        cases h : isRowIdColumnAlias ctx col.alias_ with
        | false => rfl
        | true => exact absurd (hrec _ h) hrow
      have hs : seqAfter ctx n col = n + 1 := by simp [seqAfter, hnot]
      refine ⟨n :: ms, ?_, ?_, ?_⟩
      · simp only [storedColumns, hrow, Bool.false_eq_true, if_false, List.singleton_append,
          List.map_cons, h1]
        simp [resultColumnAt, hnot, qtext]
      · refine List.Pairwise.cons ?_ h2
        intro m hm
        have := h3 m hm
        omega
      · intro m hm
        rcases List.mem_cons.mp hm with rfl | hm
        · exact le_refl _
        · have := h3 m hm
          omega

theorem resultColumnEntries_mem (env : Env) (rcs : List ResultColumn) :
    ∀ used e, e ∈ resultColumnEntries env used rcs →
      ∃ rc ∈ rcs, ∃ u, e = columnTokens env u rc := by
  induction rcs with
  | nil => intro used e h; simp [resultColumnEntries] at h
  | cons rc rest ih =>
    intro used e h
    simp only [resultColumnEntries, List.mem_cons] at h
    rcases h with h | h
    · exact ⟨rc, List.mem_cons_self _ _, used, h⟩
    · obtain ⟨rc1, h1, u, h2⟩ := ih _ e h
      exact ⟨rc1, List.mem_cons_of_mem _ h1, u, h2⟩

/-- Every stored column comes from a resolved column that `isRowIdColumn` does not
recognise, built with the alias counter at or above its starting value. -/
theorem storedColumns_mem (env : Env) (names : List QString) (ctx : Context)
    (cols : List Column) :
    ∀ n rc, rc ∈ storedColumns env names ctx n cols →
      ∃ col ∈ cols, ∃ m, n ≤ m ∧ isRowIdColumn names col.alias_ = false ∧
        rc = resultColumnAt env ctx m col := by
  induction cols with
  | nil => intro n rc h; simp [storedColumns] at h
  | cons col rest ih =>
    intro n rc h
    have hseq : n ≤ seqAfter ctx n col := by
      unfold seqAfter; split <;> omega
    simp only [storedColumns, List.mem_append] at h
    rcases h with h | h
    · by_cases hrow : isRowIdColumn names col.alias_ = true
      · simp [hrow] at h
      · simp only [hrow, Bool.false_eq_true, if_false, List.mem_singleton] at h
        exact ⟨col, List.mem_cons_self _ _, n, le_refl _, by simpa using hrow, h⟩
    · obtain ⟨c, hc, m, hm, h1, h2⟩ := ih _ rc h
      exact ⟨c, List.mem_cons_of_mem _ hc, m, le_trans hseq hm, h1, h2⟩

/-- The tokens of a stored column are never the single token of a row-id alias, as long
as no row-id alias is a name that the alias counter can still mint. -/
theorem columnTokens_stored_ne (env : Env) (names : List QString) (ctx : Context)
    (n m : Nat) (hnm : n ≤ m) (col : Column) (used : List String) (k : QString)
    (hk : k ∈ rowIdAliases ctx)
    (hfresh : ∀ k ∈ rowIdAliases ctx, ∀ i, n ≤ i → qtext k ≠ "ResCol_" ++ toString i)
    (hrow : isRowIdColumn (names ++ rowIdAliases ctx) col.alias_ = false) :
    columnTokens env used (resultColumnAt env ctx m col) ≠ [⟨.OTHER, qtext k⟩] := by
  by_cases hal : isRowIdColumnAlias ctx col.alias_ = true
  · -- a recognised alias that `isRowIdColumn` misses contains a colon, so it is not null
    have hcolon : containsColon col.alias_ = true := by
      cases h : containsColon col.alias_ with
      | true => rfl
      | false =>
        rw [isRowIdColumn_of_alias ctx names col.alias_ hal h] at hrow
        cases hrow
    have hnn : isNull col.alias_ = false := by
      cases h : col.alias_ with
      | none => rw [h] at hcolon; simp [containsColon, qtext] at hcolon
      | some x => rfl
    have hbase : isNull (baseColName (resultColumnAt env ctx m col)) = false := by
      simp [baseColName, resultColumnAt, hal, hnn, classify_alias]
    simp [columnTokens, hbase]
  · have hal1 : isRowIdColumnAlias ctx col.alias_ = false := by simpa using hal
    have hq : qtext (resultColumnAt env ctx m col).queryExecutorAlias =
        "ResCol_" ++ toString m := by
      simp [resultColumnAt, hal1, qtext]
    unfold columnTokens
    split
    · simp
    · rw [hq]
      intro h
      have h1 : "ResCol_" ++ toString m = qtext k := by
        simpa using h
      exact hfresh k hk m hnm h1.symm

theorem occurrences_append (column : TokenList) (l1 l2 : List TokenList) :
    occurrences column (l1 ++ l2) = occurrences column l1 + occurrences column l2 := by
  simp [occurrences]

theorem occurrences_of_not_mem (column : TokenList) (l : List TokenList) (h : column ∉ l) :
    occurrences column l = 0 := by
  simp only [occurrences, List.length_eq_zero, List.filter_eq_nil_iff, decide_eq_true_eq]
  intro e he heq
  exact h (heq ▸ he)

theorem occurrences_of_nodup (column : TokenList) (l : List TokenList) (hn : l.Nodup)
    (h : column ∈ l) : occurrences column l = 1 := by
  induction l with
  | nil => cases h
  | cons e rest ih =>
    have hn1 := List.nodup_cons.mp hn
    by_cases he : e = column
    · subst he
      have := occurrences_of_not_mem e rest hn1.1
      simp only [occurrences] at this ⊢
      simp [List.filter_cons, this]
    · have hin : column ∈ rest := by
        rcases List.mem_cons.mp h with h1 | h1
        · exact absurd h1.symm he
        · exact h1
      have := ih hn1.2 hin
      simp only [occurrences] at this ⊢
      simp [List.filter_cons, he, this]

/-- The reasons of a table column, by the four conditions that `getResultColumn` tests. -/
theorem tableColumnReasons_eq (env : Env) (col : Column) :
    tableColumnReasons env col =
      (if env.isSystemTable (qtext col.table) then [ColumnEditionForbiddenReason.SYSTEM_TABLE]
        else []) ++
      (if col.flags.contains .FROM_COMPOUND_SELECT then [ColumnEditionForbiddenReason.COMPOUND_SELECT]
        else []) ++
      (if col.flags.contains .FROM_GROUPED_SELECT then [ColumnEditionForbiddenReason.GROUPED_RESULTS]
        else []) ++
      (if col.flags.contains .FROM_DISTINCT_SELECT then [ColumnEditionForbiddenReason.DISTINCT_RESULTS]
        else []) := by
  unfold tableColumnReasons
  cases env.isSystemTable (qtext col.table) <;>
    cases col.flags.contains Flag.FROM_COMPOUND_SELECT <;>
    cases col.flags.contains Flag.FROM_GROUPED_SELECT <;>
    cases col.flags.contains Flag.FROM_DISTINCT_SELECT <;>
    simp [qsetInsert]

theorem getResultColumn_reasons (env : Env) (ctx : Context) (col : Column) :
    (getResultColumn env ctx col).1.editionForbiddenReasons =
      (classify env col).editionForbiddenReasons ∧
    (getResultColumn env ctx col).1.expression = (classify env col).expression := by
  rw [getResultColumn_eq]
  exact ⟨rfl, rfl⟩

/-! ## Properties of the step -/

/-- C1: when the statement is not a SELECT (`getSelect()` yields none) or carries the
EXPLAIN modifier, `exec` returns true, `NOT_A_SELECT` is among the statement-level
edition-forbidden reasons afterwards (with every reason that was there before), and the
statement, the context's result column list and the processed query are as before. -/
theorem exec_not_a_select (env : Env) (s : Step)
    (h : s.select = none ∨ ∃ sel, s.select = some sel ∧ sel.explain = true) :
    (exec env s).1 = true ∧
    EditionForbiddenReason.NOT_A_SELECT ∈ (exec env s).2.context.editionForbiddenReasons ∧
    (∀ r ∈ s.context.editionForbiddenReasons,
      r ∈ (exec env s).2.context.editionForbiddenReasons) ∧
    (exec env s).2.select = s.select ∧
    (exec env s).2.context.resultColumns = s.context.resultColumns ∧
    (exec env s).2.context.processedQuery = s.context.processedQuery := by
  have hq : EditionForbiddenReason.NOT_A_SELECT ∈
        qsetInsert s.context.editionForbiddenReasons .NOT_A_SELECT ∧
      ∀ r ∈ s.context.editionForbiddenReasons,
        r ∈ qsetInsert s.context.editionForbiddenReasons .NOT_A_SELECT := by
    unfold qsetInsert
    split
    · rename_i hmem; exact ⟨hmem, fun r hr => hr⟩
    · exact ⟨by simp, fun r hr => by simp [hr]⟩
  have hexec : exec env s = (true, { s with context := { s.context with
      editionForbiddenReasons := qsetInsert s.context.editionForbiddenReasons .NOT_A_SELECT } }) := by
    rcases h with h | ⟨sel, h1, h2⟩
    · simp [exec, h]
    · simp [exec, h1, h2]
  rw [hexec]
  exact ⟨rfl, hq.1, hq.2, rfl, rfl, rfl⟩

/-- Witness for C1: an EXPLAIN of the sample statement. -/
theorem exec_not_a_select_witness :
    (exec (sampleEnv []) ⟨sampleContext [] 0, some { sampleSelect with explain := true }, []⟩).1
        = true ∧
    EditionForbiddenReason.NOT_A_SELECT ∈
      (exec (sampleEnv []) ⟨sampleContext [] 0, some { sampleSelect with explain := true }, []⟩).2.context.editionForbiddenReasons :=
  have h := exec_not_a_select (sampleEnv [])
    ⟨sampleContext [] 0, some { sampleSelect with explain := true }, []⟩
    (Or.inr ⟨_, rfl, rfl⟩)
  ⟨h.1, h.2.1⟩

/-- C2: on a SELECT (without EXPLAIN) for which the resolver reports errors or resolves
no column, `exec` returns false and changes nothing: the step after the call is the step
before it, so the first core's result columns, the context's result column list and the
processed query are as before. -/
theorem exec_resolution_error (env : Env) (s : Step) (sel : SqliteSelect)
    (hsel : s.select = some sel) (hx : sel.explain = false)
    (h : (env.resolve s.context.dbNameToAttach sel).hasErrors = true ∨
      (env.resolve s.context.dbNameToAttach sel).columns = []) :
    (exec env s).1 = false ∧
    (exec env s).2 = s ∧
    (exec env s).2.select = some sel ∧
    (exec env s).2.context.resultColumns = s.context.resultColumns ∧
    (exec env s).2.context.processedQuery = s.context.processedQuery := by
  have hexec : exec env s = (false, s) := by
    rcases h with h | h
    · simp [exec, hsel, hx, h]
    · simp [exec, hsel, hx, h]
  rw [hexec]
  exact ⟨rfl, rfl, hsel, rfl, rfl⟩

/-- Witness for C2: the resolver resolves no column of the sample statement. -/
theorem exec_resolution_error_witness :
    (exec (sampleEnv []) (sampleStep [] 0)).1 = false ∧
    (exec (sampleEnv []) (sampleStep [] 0)).2 = sampleStep [] 0 :=
  have h := exec_resolution_error (sampleEnv []) (sampleStep [] 0) sampleSelect rfl rfl
    (Or.inr rfl)
  ⟨h.1, h.2.1⟩

/-- C3, as stated, fails: the resolver yields the table column `a` and then an expression
whose text does not parse. `exec` returns false, but the context has gained the result
column of `a` and the first core holds the rebuilt column of `a` instead of the star. -/
theorem exec_parse_failure_not_atomic :
    reparses (sampleEnv [sampleColumn "t" "a", sampleExpression ""]) (sampleExpression "")
      = false ∧
    (exec (sampleEnv [sampleColumn "t" "a", sampleExpression ""]) (sampleStep [] 0)).1
      = false ∧
    (exec (sampleEnv [sampleColumn "t" "a", sampleExpression ""]) (sampleStep [] 0)).2.context.resultColumns
      ≠ (sampleStep [] 0).context.resultColumns ∧
    (exec (sampleEnv [sampleColumn "t" "a", sampleExpression ""]) (sampleStep [] 0)).2.select
      = some { sampleSelect with firstCore := ⟨[⟨⟨"a", none, some "t"⟩, true, some "ResCol_0"⟩]⟩ } ∧
    (exec (sampleEnv [sampleColumn "t" "a", sampleExpression ""]) (sampleStep [] 0)).2.select
      ≠ (sampleStep [] 0).select := by
  refine ⟨by decide, by decide, by decide, by decide, by decide⟩

/-- C3, amended: when some resolved column that is not dropped has a text that does not
parse, `exec` returns false, the processed query is as before and the statement keeps its
tokens, its EXPLAIN flag and its other cores (no rewritten SQL is produced); the context
and the first core are left as the loop had them when it reached the first such column
`bad`: the first core holds the columns rebuilt from the columns `pre` before `bad` in
place of its former ones, and the context is the one after `pre`, the alias counter
advanced for `bad`. -/
theorem exec_parse_failure (env : Env) (s : Step) (sel : SqliteSelect)
    (hsel : s.select = some sel) (hx : sel.explain = false)
    (herr : (env.resolve s.context.dbNameToAttach sel).hasErrors = false)
    (hbad : ∃ col ∈ (env.resolve s.context.dbNameToAttach sel).columns,
      dropped (s.rowIdColNames ++ rowIdAliases s.context) col = false ∧
      reparses env col = false) :
    (exec env s).1 = false ∧
    (exec env s).2.context.processedQuery = s.context.processedQuery ∧
    ∃ pre bad post ctxP coreP,
      (env.resolve s.context.dbNameToAttach sel).columns = pre ++ bad :: post ∧
      (∀ c ∈ pre, dropped (s.rowIdColNames ++ rowIdAliases s.context) c = true ∨
        reparses env c = true) ∧
      dropped (s.rowIdColNames ++ rowIdAliases s.context) bad = false ∧
      reparses env bad = false ∧
      execLoop env (s.rowIdColNames ++ rowIdAliases s.context) pre s.context ⟨[]⟩
        = (true, ctxP, coreP) ∧
      (exec env s).2.context = (getResultColumn env ctxP bad).2 ∧
      (exec env s).2.select = some { sel with firstCore := coreP } := by
  have hcols : (env.resolve s.context.dbNameToAttach sel).columns ≠ [] := by
    obtain ⟨c, hc, _⟩ := hbad
    intro h0; rw [h0] at hc; cases hc
  obtain ⟨pre, bad, post, ctxP, coreP, h1, h2, h3, h4, h5, h6⟩ :=
    execLoop_fail env (s.rowIdColNames ++ rowIdAliases s.context)
      (env.resolve s.context.dbNameToAttach sel).columns s.context ⟨[]⟩ hbad
  have hexec := exec_loop_false env s sel hsel hx herr hcols (by rw [h6])
  have hframe := execLoop_frame env (s.rowIdColNames ++ rowIdAliases s.context)
      (env.resolve s.context.dbNameToAttach sel).columns s.context ⟨[]⟩
  rw [hexec]
  refine ⟨rfl, hframe.2.2.1, pre, bad, post, ctxP, coreP, h1, h2, h3, h4, h5, ?_, ?_⟩
  · simp only [h6]
  · simp only [h6]

/-- Witness for C3, amended: the table column `a` followed by an expression that does
not parse. -/
theorem exec_parse_failure_witness :
    (exec (sampleEnv [sampleColumn "t" "a", sampleExpression ""]) (sampleStep [] 0)).1
      = false ∧
    (exec (sampleEnv [sampleColumn "t" "a", sampleExpression ""]) (sampleStep [] 0)).2.context.processedQuery
      = "SELECT * FROM t" :=
  have h := exec_parse_failure (sampleEnv [sampleColumn "t" "a", sampleExpression ""])
    (sampleStep [] 0) sampleSelect rfl rfl rfl
    ⟨sampleExpression "", by decide, by decide, by decide⟩
  ⟨h.1, h.2.1⟩

/-- C4, as stated, fails: the upstream row-id column has the alias `r:1` and the resolver
yields a column with that alias. `isRowIdColumnAlias` recognises it, so it keeps `r:1` as
its generated alias; `isRowIdColumn` looks for `r` and misses it, so the column is stored.
The outer column list projects the alias `r:1` twice. -/
theorem generated_aliases_duplicate :
    (exec (sampleEnv [{ sampleColumn "t" "rowid" with alias_ := some "r:1" }])
      (sampleStep [⟨[(some "r:1", some "rowid")]⟩] 0)).1 = true ∧
    generatedAliases (exec (sampleEnv [{ sampleColumn "t" "rowid" with alias_ := some "r:1" }])
      (sampleStep [⟨[(some "r:1", some "rowid")]⟩] 0)).2.context = ["r:1", "r:1"] ∧
    ¬ (generatedAliases (exec (sampleEnv [{ sampleColumn "t" "rowid" with alias_ := some "r:1" }])
      (sampleStep [⟨[(some "r:1", some "rowid")]⟩] 0)).2.context).Nodup := by
  refine ⟨by decide, by decide, by decide⟩

/-- C4, amended: after a successful `exec` on a SELECT, the result column list of the
context initially empty, the generated aliases projected by the outer column list (every
row-id alias, then the `queryExecutorAlias` of every result column of the context; they
are the last tokens of its columns) contain no duplicates, provided the upstream row-id
aliases are pairwise distinct, none contains a colon and none is a name `ResCol_n` that
the alias counter can still mint. -/
theorem generated_aliases_nodup (env : Env) (s : Step) (sel : SqliteSelect)
    (hsel : s.select = some sel) (hx : sel.explain = false)
    (hok : (exec env s).1 = true)
    (hempty : s.context.resultColumns = [])
    (hkeys : ((rowIdAliases s.context).map qtext).Nodup)
    (hcolon : ∀ k ∈ rowIdAliases s.context, containsColon k = false)
    (hfresh : ∀ k ∈ rowIdAliases s.context, ∀ n, s.context.colNameSeq ≤ n →
      qtext k ≠ "ResCol_" ++ toString n) :
    (generatedAliases (exec env s).2.context).Nodup ∧
    (columnsOf (outerColumns env (exec env s).2.context)).map projectedAlias =
      (generatedAliases (exec env s).2.context).map some := by
  refine ⟨?_, projected_outerColumns env _⟩
  obtain ⟨h1, h2, _⟩ := exec_success env s sel hsel hx hok
  have hrec : ∀ a, isRowIdColumnAlias s.context a = true →
      isRowIdColumn (s.rowIdColNames ++ rowIdAliases s.context) a = true := by
    intro a ha
    obtain ⟨k, hk, hka⟩ := (isRowIdColumnAlias_iff s.context a).mp ha
    have hc : containsColon a = false := by
      rw [← containsColon_congr hka]; exact hcolon k hk
    exact isRowIdColumn_of_alias s.context s.rowIdColNames a ha hc
  obtain ⟨ms, hm1, hm2, hm3⟩ := storedColumns_fresh env
    (s.rowIdColNames ++ rowIdAliases s.context) s.context hrec
    (env.resolve s.context.dbNameToAttach sel).columns s.context.colNameSeq
  have hms : ms.Nodup := hm2.imp (fun h => Nat.ne_of_lt h)
  unfold generatedAliases
  rw [rowIdAliases_congr h1, h2, hempty, List.nil_append, hm1]
  refine List.Nodup.append hkeys (hms.map (fun a b h => fresh_inj a b h)) ?_
  intro x hx1 hx2
  obtain ⟨k, hk, rfl⟩ := List.mem_map.mp hx1
  obtain ⟨m, hm, hmk⟩ := List.mem_map.mp hx2
  exact hfresh k hk m (hm3 m hm) hmk.symm

/-- Witness for C4, amended: one upstream row-id alias `ResCol_0`, the alias counter at
1, and the resolver yields that alias, its duplicate `ResCol_0:1` and the columns `a`, `b`. -/
theorem generated_aliases_nodup_witness :
    (generatedAliases (exec (sampleEnv [{ sampleColumn "t" "rowid" with alias_ := some "ResCol_0" },
        { sampleColumn "t" "rowid" with alias_ := some "ResCol_0:1" },
        sampleColumn "t" "a", sampleColumn "t" "b"])
      (sampleStep [⟨[(some "ResCol_0", some "rowid")]⟩] 1)).2.context).Nodup :=
  (generated_aliases_nodup
    (sampleEnv [{ sampleColumn "t" "rowid" with alias_ := some "ResCol_0" },
        { sampleColumn "t" "rowid" with alias_ := some "ResCol_0:1" },
        sampleColumn "t" "a", sampleColumn "t" "b"])
    (sampleStep [⟨[(some "ResCol_0", some "rowid")]⟩] 1) sampleSelect rfl rfl
    (by decide) rfl (by decide) (by decide)
    (by
      intro k hk n hn h
      have hk1 : k = some "ResCol_0" := by simpa [rowIdAliases, sampleStep, sampleContext,
        ResultRowIdColumn.keys] using hk
      subst hk1
      have h0 : "ResCol_" ++ toString 0 = "ResCol_" ++ toString n := h
      have := fresh_inj 0 n h0
      have hn1 : 1 ≤ n := hn
      omega)).1

/-- C5, as stated, fails: two upstream row-id columns map the same alias `r` (to `rowid`
and to `oid`). The rewrite succeeds and the outer column list reads `r, r, ResCol_0`: the
alias `r` is a column of it twice. -/
theorem row_id_alias_twice :
    (exec (sampleEnv [sampleColumn "t" "a"])
      (sampleStep [⟨[(some "r", some "rowid")]⟩, ⟨[(some "r", some "oid")]⟩] 0)).1 = true ∧
    some "r" ∈ rowIdAliases (sampleStep [⟨[(some "r", some "rowid")]⟩, ⟨[(some "r", some "oid")]⟩] 0).context ∧
    columnsOf (outerColumns (sampleEnv [sampleColumn "t" "a"])
      (exec (sampleEnv [sampleColumn "t" "a"])
        (sampleStep [⟨[(some "r", some "rowid")]⟩, ⟨[(some "r", some "oid")]⟩] 0)).2.context)
      = [[⟨.OTHER, "r"⟩], [⟨.OTHER, "r"⟩], [⟨.OTHER, "ResCol_0"⟩]] ∧
    occurrences [⟨.OTHER, "r"⟩] (columnsOf (outerColumns (sampleEnv [sampleColumn "t" "a"])
      (exec (sampleEnv [sampleColumn "t" "a"])
        (sampleStep [⟨[(some "r", some "rowid")]⟩, ⟨[(some "r", some "oid")]⟩] 0)).2.context))
      = 2 := by
  refine ⟨by decide, by decide, by decide, by decide⟩

/-- C6: after a successful `exec` on a SELECT, the statement carries the wrapping of the
outer column list of the final context, and the number of columns of that list (the runs
of tokens between its `, ` separators) is the number of row-id aliases (the keys of all
upstream row-id columns) plus the number of result columns held by the context. -/
theorem outer_column_count (env : Env) (s : Step) (sel : SqliteSelect)
    (hsel : s.select = some sel) (hx : sel.explain = false)
    (hok : (exec env s).1 = true) :
    (∃ inner : SqliteSelect, (exec env s).2.select = some (wrapWithAliasedColumns env
      (exec env s).2.context inner)) ∧
    rowIdAliases (exec env s).2.context = rowIdAliases s.context ∧
    (columnsOf (outerColumns env (exec env s).2.context)).length =
      (rowIdAliases s.context).length + (exec env s).2.context.resultColumns.length := by
  obtain ⟨h1, _, h3⟩ := exec_success env s sel hsel hx hok
  refine ⟨h3, rowIdAliases_congr h1, ?_⟩
  rw [columnsOf_outerColumns, rowIdAliases_congr h1]
  simp [resultColumnEntries_length]

/-- Witness for C6: one upstream row-id alias, the resolver yields that alias, its
duplicate with a colon and two table columns; the outer list has three columns. -/
theorem outer_column_count_witness :
    (columnsOf (outerColumns (sampleEnv [{ sampleColumn "t" "rowid" with alias_ := some "ResCol_0" },
        { sampleColumn "t" "rowid" with alias_ := some "ResCol_0:1" },
        sampleColumn "t" "a", sampleColumn "t" "b"])
      (exec (sampleEnv [{ sampleColumn "t" "rowid" with alias_ := some "ResCol_0" },
        { sampleColumn "t" "rowid" with alias_ := some "ResCol_0:1" },
        sampleColumn "t" "a", sampleColumn "t" "b"])
      (sampleStep [⟨[(some "ResCol_0", some "rowid")]⟩] 1)).2.context)).length = 1 + 2 :=
  (outer_column_count
    (sampleEnv [{ sampleColumn "t" "rowid" with alias_ := some "ResCol_0" },
        { sampleColumn "t" "rowid" with alias_ := some "ResCol_0:1" },
        sampleColumn "t" "a", sampleColumn "t" "b"])
    (sampleStep [⟨[(some "ResCol_0", some "rowid")]⟩] 1) sampleSelect rfl rfl
    (by decide)).2.2

/-- C7: for a resolved column of type `COLUMN`, the edition-forbidden reasons that
`getResultColumn` sets are exactly `SYSTEM_TABLE` when the table is a system table,
`COMPOUND_SELECT`, `GROUPED_RESULTS` and `DISTINCT_RESULTS` when the matching flag is set,
and nothing else, each once; a system table column flagged grouped and distinct but not
compound gets exactly `SYSTEM_TABLE`, `GROUPED_RESULTS` and `DISTINCT_RESULTS`. -/
theorem table_column_reasons (env : Env) (ctx : Context) (col : Column)
    (h : col.type = .COLUMN) :
    (∀ r, r ∈ (getResultColumn env ctx col).1.editionForbiddenReasons ↔
      (r = .SYSTEM_TABLE ∧ env.isSystemTable (qtext col.table) = true) ∨
      (r = .COMPOUND_SELECT ∧ Flag.FROM_COMPOUND_SELECT ∈ col.flags) ∨
      (r = .GROUPED_RESULTS ∧ Flag.FROM_GROUPED_SELECT ∈ col.flags) ∨
      (r = .DISTINCT_RESULTS ∧ Flag.FROM_DISTINCT_SELECT ∈ col.flags)) ∧
    (getResultColumn env ctx col).1.editionForbiddenReasons.Nodup ∧
    (env.isSystemTable (qtext col.table) = true → Flag.FROM_COMPOUND_SELECT ∉ col.flags →
      Flag.FROM_GROUPED_SELECT ∈ col.flags → Flag.FROM_DISTINCT_SELECT ∈ col.flags →
      (getResultColumn env ctx col).1.editionForbiddenReasons =
        [.SYSTEM_TABLE, .GROUPED_RESULTS, .DISTINCT_RESULTS]) := by
  have hreasons : (getResultColumn env ctx col).1.editionForbiddenReasons =
      tableColumnReasons env col := by
    rw [(getResultColumn_reasons env ctx col).1]
    simp [classify, h]
  rw [hreasons, tableColumnReasons_eq]
  have e1 : ∀ f : Flag, col.flags.contains f = true ↔ f ∈ col.flags := by
    intro f; simp
  refine ⟨?_, ?_, ?_⟩
  · intro r
    simp only [← e1]
    cases env.isSystemTable (qtext col.table) <;>
      cases col.flags.contains Flag.FROM_COMPOUND_SELECT <;>
      cases col.flags.contains Flag.FROM_GROUPED_SELECT <;>
      cases col.flags.contains Flag.FROM_DISTINCT_SELECT <;>
      cases r <;> simp
  · cases env.isSystemTable (qtext col.table) <;>
      cases col.flags.contains Flag.FROM_COMPOUND_SELECT <;>
      cases col.flags.contains Flag.FROM_GROUPED_SELECT <;>
      cases col.flags.contains Flag.FROM_DISTINCT_SELECT <;>
      simp
  · intro h1 h2 h3 h4
    have h2' : col.flags.contains Flag.FROM_COMPOUND_SELECT = false := by
      simpa using h2
    rw [h1, h2', (e1 _).mpr h3, (e1 _).mpr h4]
    rfl

/-- Witness for C7: a column of `sqlite_master` flagged grouped and distinct. -/
theorem table_column_reasons_witness :
    (getResultColumn (sampleEnv []) (sampleContext [] 0)
      { sampleColumn "sqlite_master" "name" with
        flags := [.FROM_GROUPED_SELECT, .FROM_DISTINCT_SELECT] }).1.editionForbiddenReasons =
      [.SYSTEM_TABLE, .GROUPED_RESULTS, .DISTINCT_RESULTS] :=
  (table_column_reasons (sampleEnv []) (sampleContext [] 0)
    { sampleColumn "sqlite_master" "name" with
      flags := [.FROM_GROUPED_SELECT, .FROM_DISTINCT_SELECT] } rfl).2.2
    (by decide) (by decide) (by decide) (by decide)

/-- C8, as stated, fails: in `SELECT a + 1 FROM t1 UNION SELECT a FROM t2` the resolved
column is an expression that carries `FROM_COMPOUND_SELECT`. The rewrite succeeds and the
result column it produces carries `EXPRESSION` alone. -/
theorem compound_expression_reasons :
    (∀ col ∈ [{ sampleExpression "a + 1" with flags := [.FROM_COMPOUND_SELECT] }],
      Flag.FROM_COMPOUND_SELECT ∈ col.flags) ∧
    (exec (sampleEnv [{ sampleExpression "a + 1" with flags := [.FROM_COMPOUND_SELECT] }])
      (sampleStep [] 0)).1 = true ∧
    (exec (sampleEnv [{ sampleExpression "a + 1" with flags := [.FROM_COMPOUND_SELECT] }])
      (sampleStep [] 0)).2.context.resultColumns.map (fun rc => rc.editionForbiddenReasons)
      = [[.EXPRESSION]] ∧
    ∃ rc ∈ (exec (sampleEnv [{ sampleExpression "a + 1" with flags := [.FROM_COMPOUND_SELECT] }])
      (sampleStep [] 0)).2.context.resultColumns,
      ColumnEditionForbiddenReason.COMPOUND_SELECT ∉ rc.editionForbiddenReasons := by
  refine ⟨by decide, by decide, by decide, by decide⟩

/-- C8, amended: when every resolved column carries `FROM_COMPOUND_SELECT`, the result
columns that a successful `exec` appends to the context carry `COMPOUND_SELECT` when
they come from a table column, and `EXPRESSION` alone when they come from an expression. -/
theorem compound_select_reasons (env : Env) (s : Step) (sel : SqliteSelect)
    (hsel : s.select = some sel) (hx : sel.explain = false)
    (hok : (exec env s).1 = true)
    (hflag : ∀ col ∈ (env.resolve s.context.dbNameToAttach sel).columns,
      Flag.FROM_COMPOUND_SELECT ∈ col.flags) :
    ∃ added, (exec env s).2.context.resultColumns = s.context.resultColumns ++ added ∧
      ∀ rc ∈ added,
        (rc.expression = false →
          ColumnEditionForbiddenReason.COMPOUND_SELECT ∈ rc.editionForbiddenReasons) ∧
        (rc.expression = true → rc.editionForbiddenReasons = [.EXPRESSION]) := by
  obtain ⟨_, h2, _⟩ := exec_success env s sel hsel hx hok
  refine ⟨_, h2, ?_⟩
  intro rc hrc
  obtain ⟨col, hcol, m, _, _, hrc1⟩ := storedColumns_mem env _ _ _ _ rc hrc
  have hf : col.flags.contains Flag.FROM_COMPOUND_SELECT = true := by
    simpa using hflag col hcol
  subst hrc1
  by_cases ht : col.type = .OTHER
  · simp [resultColumnAt, classify, ht, qsetInsert]
  · have hr : (resultColumnAt env s.context m col).editionForbiddenReasons =
        tableColumnReasons env col := by
      simp [resultColumnAt, classify, ht]
    have he : (resultColumnAt env s.context m col).expression = false := by
      simp [resultColumnAt, classify, ht]
    rw [hr, he, tableColumnReasons_eq, hf]
    simp

/-- Witness for C8, amended: `SELECT a FROM t1 UNION SELECT a FROM t2`. -/
theorem compound_select_reasons_witness :
    ∃ added, (exec (sampleEnv [{ sampleColumn "t1" "a" with flags := [.FROM_COMPOUND_SELECT] }])
        (sampleStep [] 0)).2.context.resultColumns =
        (sampleStep [] 0).context.resultColumns ++ added ∧
      ∀ rc ∈ added,
        (rc.expression = false →
          ColumnEditionForbiddenReason.COMPOUND_SELECT ∈ rc.editionForbiddenReasons) ∧
        (rc.expression = true → rc.editionForbiddenReasons = [.EXPRESSION]) :=
  compound_select_reasons
    (sampleEnv [{ sampleColumn "t1" "a" with flags := [.FROM_COMPOUND_SELECT] }])
    (sampleStep [] 0) sampleSelect rfl rfl (by decide) (by decide)

/-- C9, as stated, fails: for the columns `a`, `b` of table `t` without a user alias
and no row-id column, `exec` succeeds and the outer column list is the four tokens
`ResCol_0`, `,`, ` `, `ResCol_1`. Both result columns are table columns and not
expressions, and for neither is the name followed by `AS` emitted: `baseColName` is the
null user alias, because the generated alias is not null. -/
theorem outer_columns_of_table_columns :
    (exec (sampleEnv [sampleColumn "t" "a", sampleColumn "t" "b"]) (sampleStep [] 0)).1 = true ∧
    (exec (sampleEnv [sampleColumn "t" "a", sampleColumn "t" "b"])
      (sampleStep [] 0)).2.context.resultColumns.map
        (fun rc => (rc.expression, rc.column, rc.alias_, rc.queryExecutorAlias, baseColName rc))
      = [(false, some "a", none, some "ResCol_0", none),
         (false, some "b", none, some "ResCol_1", none)] ∧
    outerColumns (sampleEnv [sampleColumn "t" "a", sampleColumn "t" "b"])
      (exec (sampleEnv [sampleColumn "t" "a", sampleColumn "t" "b"]) (sampleStep [] 0)).2.context
      = [⟨.OTHER, "ResCol_0"⟩, ⟨.OPERATOR, ","⟩, ⟨.SPACE, " "⟩, ⟨.OTHER, "ResCol_1"⟩] ∧
    outerColumns (sampleEnv [sampleColumn "t" "a", sampleColumn "t" "b"])
      (exec (sampleEnv [sampleColumn "t" "a", sampleColumn "t" "b"]) (sampleStep [] 0)).2.context
      ≠ [⟨.OTHER, "a"⟩, ⟨.SPACE, " "⟩, ⟨.KEYWORD, "AS"⟩, ⟨.SPACE, " "⟩, ⟨.OTHER, "ResCol_0"⟩,
         ⟨.OPERATOR, ","⟩, ⟨.SPACE, " "⟩,
         ⟨.OTHER, "b"⟩, ⟨.SPACE, " "⟩, ⟨.KEYWORD, "AS"⟩, ⟨.SPACE, " "⟩, ⟨.OTHER, "ResCol_1"⟩] := by
  refine ⟨by decide, by decide, by decide, by decide⟩

/-- C10, as stated, fails: for the columns `id` of `t1` and `id` of `t2` without a user
alias, `exec` succeeds and the outer column list has the two columns `ResCol_0` and
`ResCol_1`. The generated aliases differ, but no token of the list is the name `id` or
`id:1` (quoted or not), and the list of names used stays empty. -/
theorem outer_columns_of_colliding_names :
    (exec (sampleEnv [sampleColumn "t1" "id", sampleColumn "t2" "id"]) (sampleStep [] 0)).1
      = true ∧
    columnsOf (outerColumns (sampleEnv [sampleColumn "t1" "id", sampleColumn "t2" "id"])
      (exec (sampleEnv [sampleColumn "t1" "id", sampleColumn "t2" "id"])
        (sampleStep [] 0)).2.context)
      = [[⟨.OTHER, "ResCol_0"⟩], [⟨.OTHER, "ResCol_1"⟩]] ∧
    (∀ t ∈ outerColumns (sampleEnv [sampleColumn "t1" "id", sampleColumn "t2" "id"])
      (exec (sampleEnv [sampleColumn "t1" "id", sampleColumn "t2" "id"])
        (sampleStep [] 0)).2.context,
      t.value ≠ "id" ∧ t.value ≠ "id:1" ∧ t.value ≠ "[id:1]" ∧ t.value ≠ "AS") ∧
    ((exec (sampleEnv [sampleColumn "t1" "id", sampleColumn "t2" "id"])
        (sampleStep [] 0)).2.context.resultColumns.foldl
      (wrapResultColumn (sampleEnv [sampleColumn "t1" "id", sampleColumn "t2" "id"]))
      ⟨true, [], []⟩).columnNamesUsed = [] := by
  refine ⟨by decide, by decide, by decide, by decide⟩

theorem exec_rowIdColNames (env : Env) (s : Step) (sel : SqliteSelect)
    (hsel : s.select = some sel) (hx : sel.explain = false)
    (herr : (env.resolve s.context.dbNameToAttach sel).hasErrors = false)
    (hcols : (env.resolve s.context.dbNameToAttach sel).columns ≠ []) :
    (exec env s).2.rowIdColNames = s.rowIdColNames ++ rowIdAliases s.context := by
  cases hl : (execLoop env (s.rowIdColNames ++ rowIdAliases s.context)
      (env.resolve s.context.dbNameToAttach sel).columns s.context ⟨[]⟩).1 with
  | false => rw [exec_loop_false env s sel hsel hx herr hcols hl]
  | true =>
    have hlen : ((env.resolve s.context.dbNameToAttach sel).columns.length == 0) = false := by
      cases h : (env.resolve s.context.dbNameToAttach sel).columns with
      | nil => exact absurd h hcols
      | cons a l => rfl
    simp only [exec, hsel, hx, herr, hlen, Bool.false_eq_true, if_false]
    generalize execLoop env (s.rowIdColNames ++ rowIdAliases s.context)
        (env.resolve s.context.dbNameToAttach sel).columns s.context ⟨[]⟩ = r at hl ⊢
    obtain ⟨b, c, k⟩ := r
    simp only at hl
    subst hl
    rfl

theorem isRowIdColumnAlias_eq_qcontains (ctx : Context) (a : QString) :
    isRowIdColumnAlias ctx a = qcontains (rowIdAliases ctx) a := by
  cases h : qcontains (rowIdAliases ctx) a with
  | true =>
    exact (isRowIdColumnAlias_iff ctx a).mpr ((qcontains_iff _ _).mp h)
  | false =>
    cases h1 : isRowIdColumnAlias ctx a with
    | false => rfl
    | true =>
      have := (qcontains_iff _ _).mpr ((isRowIdColumnAlias_iff ctx a).mp h1)
      rw [h] at this; cases this

/-- C13: `getResultColumn` reuses the column's own alias as the generated alias, leaving
the context (and so the alias counter) as it was, exactly when the alias is a key of the
hash of some row-id column of the context; in every other case the generated alias is
the name `ResCol_<n>` minted from the counter `n` of the context, and the counter has
advanced by one. -/
theorem generated_alias_rule (env : Env) (ctx : Context) (col : Column) :
    (isRowIdColumnAlias ctx col.alias_ = true ↔
      ∃ k ∈ rowIdAliases ctx, qtext k = qtext col.alias_) ∧
    (isRowIdColumnAlias ctx col.alias_ = true →
      (getResultColumn env ctx col).1.queryExecutorAlias = col.alias_ ∧
      (getResultColumn env ctx col).2 = ctx) ∧
    (isRowIdColumnAlias ctx col.alias_ = false →
      (getResultColumn env ctx col).1.queryExecutorAlias =
        some ("ResCol_" ++ toString ctx.colNameSeq) ∧
      (getResultColumn env ctx col).2 = { ctx with colNameSeq := ctx.colNameSeq + 1 }) ∧
    ((getResultColumn env ctx col).2 = ctx ↔ isRowIdColumnAlias ctx col.alias_ = true) := by
  refine ⟨isRowIdColumnAlias_iff ctx col.alias_, ?_, ?_, ?_⟩
  · intro h
    rw [getResultColumn_eq]
    simp [resultColumnAt, seqAfter, h]
  · intro h
    rw [getResultColumn_eq]
    simp [resultColumnAt, seqAfter, h]
  · rw [getResultColumn_eq]
    cases h : isRowIdColumnAlias ctx col.alias_ with
    | true => simp [seqAfter, h]
    | false =>
      simp only [seqAfter, h, Bool.false_eq_true, if_false, iff_false]
      intro heq
      have := congrArg Context.colNameSeq heq
      simp at this

/-- C14: for a resolved column of type `OTHER` (an expression), whatever its flags and
table, `getResultColumn` yields a result column marked as an expression, whose
edition-forbidden reasons are exactly `EXPRESSION`, whose display name, column text and
user alias are those of the resolved column, and whose database, table and table alias
are null. -/
theorem expression_result_column (env : Env) (ctx : Context) (col : Column)
    (h : col.type = .OTHER) :
    (getResultColumn env ctx col).1.expression = true ∧
    (getResultColumn env ctx col).1.editionForbiddenReasons = [.EXPRESSION] ∧
    (getResultColumn env ctx col).1.displayName = col.displayName ∧
    (getResultColumn env ctx col).1.column = col.column ∧
    (getResultColumn env ctx col).1.alias_ = col.alias_ ∧
    (getResultColumn env ctx col).1.database = none ∧
    (getResultColumn env ctx col).1.table = none ∧
    (getResultColumn env ctx col).1.tableAlias = none := by
  rw [getResultColumn_eq]
  simp [resultColumnAt, classify, h, qsetInsert]

/-- Witness for C14: an expression that carries every flag and names a system table. -/
theorem expression_result_column_witness :
    (getResultColumn (sampleEnv []) (sampleContext [] 0)
      { sampleExpression "count(*)" with
        flags := [.FROM_COMPOUND_SELECT, .FROM_GROUPED_SELECT, .FROM_DISTINCT_SELECT],
        table := some "sqlite_master" }).1.editionForbiddenReasons = [.EXPRESSION] :=
  (expression_result_column (sampleEnv []) (sampleContext [] 0)
    { sampleExpression "count(*)" with
      flags := [.FROM_COMPOUND_SELECT, .FROM_GROUPED_SELECT, .FROM_DISTINCT_SELECT],
      table := some "sqlite_master" } rfl).2.1

theorem getResultColumnForSelect_some (env : Env) (ctx : Context) (rc : ResultColumn)
    (col : Column) (expr : SqliteExpr)
    (hparse : env.parseExpr (colString env rc col) = some expr) :
    getResultColumnForSelect env ctx rc col =
      some { expr := qualify ctx rc col expr
             asKw := true
             alias_ := if !(isNull col.alias_) then col.alias_ else rc.queryExecutorAlias } := by
  simp only [getResultColumnForSelect, hparse]

/-- C15: when the column text parses, the expression of the rebuilt column is the parsed
one with its qualifiers set as follows. With `FROM_ANONYMOUS_SELECT` the expression is
left as the parser produced it, table and database included, whatever the result column
carries. Without the flag the table qualifier is the table alias when the result column
has one, and otherwise the table when it has one. -/
theorem qualification_rule (env : Env) (ctx : Context) (rc : ResultColumn) (col : Column)
    (expr : SqliteExpr) (hparse : env.parseExpr (colString env rc col) = some expr) :
    ∃ r, getResultColumnForSelect env ctx rc col = some r ∧
      (Flag.FROM_ANONYMOUS_SELECT ∈ col.flags →
        r.expr = expr ∧ r.expr.table = expr.table ∧ r.expr.database = expr.database) ∧
      (Flag.FROM_ANONYMOUS_SELECT ∉ col.flags →
        (isNull rc.tableAlias = false → r.expr.table = rc.tableAlias) ∧
        (isNull rc.tableAlias = true → isNull rc.table = false → r.expr.table = rc.table)) := by
  refine ⟨_, getResultColumnForSelect_some env ctx rc col expr hparse, ?_, ?_⟩
  · intro hflag
    have hf : col.flags.contains Flag.FROM_ANONYMOUS_SELECT = true := by simpa using hflag
    simp [qualify, hflag]
  · intro hflag
    have hf : col.flags.contains Flag.FROM_ANONYMOUS_SELECT = false := by simpa using hflag
    refine ⟨?_, ?_⟩
    · intro h1
      simp [qualify, hflag, h1]
    · intro h1 h2
      simp only [qualify, hf, h1, h2]
      simp

/-- Witness for C15: a column of table `t` read through the table alias `x`. -/
theorem qualification_rule_witness :
    ∃ r, getResultColumnForSelect (sampleEnv []) (sampleContext [] 0)
        (getResultColumn (sampleEnv []) (sampleContext [] 0)
          { sampleColumn "t" "a" with tableAlias := some "x" }).1
        { sampleColumn "t" "a" with tableAlias := some "x" } = some r ∧
      r.expr.table = some "x" :=
  have h := qualification_rule (sampleEnv []) (sampleContext [] 0)
    (getResultColumn (sampleEnv []) (sampleContext [] 0)
      { sampleColumn "t" "a" with tableAlias := some "x" }).1
    { sampleColumn "t" "a" with tableAlias := some "x" } ⟨"a", none, none⟩ rfl
  h.elim fun r hr => ⟨r, hr.1, (hr.2.2 (by decide)).1 rfl⟩

/-- C16: when the column text parses, `getResultColumnForSelect` sets the database
qualifier of the expression in one case only: the column is not flagged
`FROM_ANONYMOUS_SELECT` and the result column has no table alias, a table and a database.
The qualifier is then the attach name that the mapping of the context pairs with the
database name, found by case-insensitive comparison, when the mapping has such a pair,
and the database name of the result column unchanged when it has none. In every other
case the database qualifier is the one the parser produced. -/
theorem database_qualifier_rule (env : Env) (ctx : Context) (rc : ResultColumn) (col : Column)
    (expr : SqliteExpr) (hparse : env.parseExpr (colString env rc col) = some expr) :
    ∃ r, getResultColumnForSelect env ctx rc col = some r ∧
      ((Flag.FROM_ANONYMOUS_SELECT ∉ col.flags ∧ isNull rc.tableAlias = true ∧
          isNull rc.table = false ∧ isNull rc.database = false) →
        (containsLeft ctx.dbNameToAttach (qtext rc.database) = true →
          r.expr.database = valueByLeft ctx.dbNameToAttach (qtext rc.database) ∧
          ∃ p ∈ ctx.dbNameToAttach, eqCI p.1 (qtext rc.database) = true ∧
            r.expr.database = some p.2) ∧
        (containsLeft ctx.dbNameToAttach (qtext rc.database) = false →
          r.expr.database = rc.database)) ∧
      (¬ (Flag.FROM_ANONYMOUS_SELECT ∉ col.flags ∧ isNull rc.tableAlias = true ∧
          isNull rc.table = false ∧ isNull rc.database = false) →
        r.expr.database = expr.database) := by
  refine ⟨_, getResultColumnForSelect_some env ctx rc col expr hparse, ?_, ?_⟩
  · rintro ⟨hflag, h1, h2, h3⟩
    have hf : col.flags.contains Flag.FROM_ANONYMOUS_SELECT = false := by simpa using hflag
    refine ⟨?_, ?_⟩
    · intro hc
      have hv : (qualify ctx rc col expr).database =
          valueByLeft ctx.dbNameToAttach (qtext rc.database) := by
        simp only [qualify, hf, h1, h2, h3, hc]
        simp
      refine ⟨hv, ?_⟩
      simp only [hv, valueByLeft]
      cases hfind : List.find? (fun p => eqCI p.1 (qtext rc.database)) ctx.dbNameToAttach with
      | none =>
        have := List.find?_eq_none.mp hfind
        simp only [containsLeft, List.any_eq_true] at hc
        obtain ⟨p, hp, hpe⟩ := hc
        exact absurd hpe (this p hp)
      | some p =>
        exact ⟨p, List.mem_of_find?_eq_some hfind, by simpa using List.find?_some hfind, rfl⟩
    · intro hc
      simp only [qualify, hf, h1, h2, h3, hc]
      simp
  · intro hnot
    by_cases hflag : Flag.FROM_ANONYMOUS_SELECT ∈ col.flags
    · simp [qualify, hflag]
    · cases h1 : isNull rc.tableAlias with
      | false => simp [qualify, hflag, h1]
      | true =>
        cases h2 : isNull rc.table with
        | true => simp [qualify, hflag, h1, h2]
        | false =>
          cases h3 : isNull rc.database with
          | true => simp [qualify, hflag, h1, h2, h3]
          | false => exact absurd ⟨hflag, h1, h2, h3⟩ hnot

/-- Witness for C16: the database `Main` of the column is attached as `attached1`, the
mapping naming it `main`. -/
theorem database_qualifier_rule_witness :
    ∃ r, getResultColumnForSelect (sampleEnv [])
        { sampleContext [] 0 with dbNameToAttach := [("main", "attached1")] }
        (getResultColumn (sampleEnv []) (sampleContext [] 0)
          { sampleColumn "t" "a" with originalDatabase := some "Main" }).1
        { sampleColumn "t" "a" with originalDatabase := some "Main" } = some r ∧
      r.expr.database = some "attached1" :=
  have h := database_qualifier_rule (sampleEnv [])
    { sampleContext [] 0 with dbNameToAttach := [("main", "attached1")] }
    (getResultColumn (sampleEnv []) (sampleContext [] 0)
      { sampleColumn "t" "a" with originalDatabase := some "Main" }).1
    { sampleColumn "t" "a" with originalDatabase := some "Main" } ⟨"a", none, none⟩ rfl
  h.elim fun r hr =>
    ⟨r, hr.1, ((hr.2.1 ⟨by decide, rfl, rfl, rfl⟩).1 (by decide)).1.trans (by decide)⟩

/-- C19: on a SELECT that reaches the loop, the step leaves `exec` with `rowIdColNames`
(empty before) holding the keys of the row-id columns of the context; with that list
`isRowIdColumn` agrees with `isRowIdColumnAlias` on every alias without a colon, and on
an alias with a colon it answers what `isRowIdColumnAlias` answers for the text before
the first colon. -/
theorem recognizers_agree (env : Env) (s : Step) (sel : SqliteSelect)
    (hsel : s.select = some sel) (hx : sel.explain = false)
    (herr : (env.resolve s.context.dbNameToAttach sel).hasErrors = false)
    (hcols : (env.resolve s.context.dbNameToAttach sel).columns ≠ [])
    (hnames : s.rowIdColNames = []) (a : QString) :
    (exec env s).2.rowIdColNames = rowIdAliases s.context ∧
    (containsColon a = false →
      isRowIdColumn (exec env s).2.rowIdColNames a = isRowIdColumnAlias s.context a) ∧
    (containsColon a = true →
      isRowIdColumn (exec env s).2.rowIdColNames a =
        isRowIdColumnAlias s.context (leftOfColon a)) := by
  have h := exec_rowIdColNames env s sel hsel hx herr hcols
  rw [hnames, List.nil_append] at h
  rw [h]
  refine ⟨rfl, ?_, ?_⟩
  · intro hc
    simp [isRowIdColumn, hc, isRowIdColumnAlias_eq_qcontains]
  · intro hc
    simp [isRowIdColumn, hc, isRowIdColumnAlias_eq_qcontains]

/-- Witness for C19: the upstream alias `ResCol_0` and the alias `ResCol_0:1`. -/
theorem recognizers_agree_witness :
    isRowIdColumn (exec (sampleEnv [sampleColumn "t" "a"])
        (sampleStep [⟨[(some "ResCol_0", some "rowid")]⟩] 1)).2.rowIdColNames
      (some "ResCol_0:1") =
      isRowIdColumnAlias (sampleStep [⟨[(some "ResCol_0", some "rowid")]⟩] 1).context
        (leftOfColon (some "ResCol_0:1")) :=
  (recognizers_agree (sampleEnv [sampleColumn "t" "a"])
    (sampleStep [⟨[(some "ResCol_0", some "rowid")]⟩] 1) sampleSelect rfl rfl rfl
    (by decide) rfl (some "ResCol_0:1")).2.2 (by decide)

theorem dropped_iff (ctx : Context) (names : List QString) (col : Column) :
    dropped (names ++ rowIdAliases ctx) col = true ↔
      containsColon col.alias_ = true ∧
        ∃ k ∈ names ++ rowIdAliases ctx, qtext k = qtext (leftOfColon col.alias_) := by
  simp only [dropped, Bool.and_eq_true, isRowIdColumn]
  constructor
  · rintro ⟨h1, h2⟩
    rw [h2] at h1
    exact ⟨h2, (qcontains_iff _ _).mp (by simpa using h1)⟩
  · rintro ⟨h1, h2⟩
    refine ⟨?_, h1⟩
    rw [h1]
    exact (qcontains_iff _ _).mpr h2

/-- C12, as stated, fails in both directions. With the upstream alias `ResCol_0`, the
resolved column `ResCol_0:1` is dropped (the core gets the columns `ResCol_0` and
`ResCol_2` only, the context the column `a` only) although its alias is no key of the
hash of any row-id column. With the upstream alias `r:1`, the resolved column `r:1` has
a key as its alias and a colon in it, and is not dropped: it is rebuilt into the core and
stored in the context. -/
theorem drop_rule_not_by_key :
    isRowIdColumnAlias (sampleStep [⟨[(some "ResCol_0", some "rowid")]⟩] 1).context
      (some "ResCol_0:1") = false ∧
    containsColon (some "ResCol_0:1") = true ∧
    (exec (sampleEnv [{ sampleColumn "t" "rowid" with alias_ := some "ResCol_0" },
        { sampleColumn "t" "rowid" with alias_ := some "ResCol_0:1" }, sampleColumn "t" "a"])
      (sampleStep [⟨[(some "ResCol_0", some "rowid")]⟩] 1)).1 = true ∧
    (exec (sampleEnv [{ sampleColumn "t" "rowid" with alias_ := some "ResCol_0" },
        { sampleColumn "t" "rowid" with alias_ := some "ResCol_0:1" }, sampleColumn "t" "a"])
      (sampleStep [⟨[(some "ResCol_0", some "rowid")]⟩] 1)).2.select.map
        (fun sel => sel.firstCore.resultColumns.map (fun r => r.alias_))
      = some [some "ResCol_0", some "ResCol_2"] ∧
    (exec (sampleEnv [{ sampleColumn "t" "rowid" with alias_ := some "ResCol_0" },
        { sampleColumn "t" "rowid" with alias_ := some "ResCol_0:1" }, sampleColumn "t" "a"])
      (sampleStep [⟨[(some "ResCol_0", some "rowid")]⟩] 1)).2.context.resultColumns.map
        (fun rc => rc.column) = [some "a"] ∧
    isRowIdColumnAlias (sampleStep [⟨[(some "r:1", some "rowid")]⟩] 0).context
      (some "r:1") = true ∧
    containsColon (some "r:1") = true ∧
    (exec (sampleEnv [{ sampleColumn "t" "rowid" with alias_ := some "r:1" }])
      (sampleStep [⟨[(some "r:1", some "rowid")]⟩] 0)).2.select.map
        (fun sel => sel.firstCore.resultColumns.map (fun r => r.alias_))
      = some [some "r:1"] ∧
    (exec (sampleEnv [{ sampleColumn "t" "rowid" with alias_ := some "r:1" }])
      (sampleStep [⟨[(some "r:1", some "rowid")]⟩] 0)).2.context.resultColumns.map
        (fun rc => rc.alias_) = [some "r:1"] := by
  refine ⟨by decide, by decide, by decide, by decide, by decide, by decide, by decide,
    by decide, by decide⟩

/-- C12, amended: with `rowIdColNames` holding the keys of the row-id columns of the
context (it was empty before `exec` collected them), the loop of `exec` drops a resolved
column, that is, goes on with the remaining columns from the same core and the same
result column list of the context, if and only if the alias of the column contains a
colon and the text before its first colon is a key of the hash of some row-id column.
A column that is not dropped either ends the loop with `false` or adds its rebuilt column
to the core. -/
theorem drop_rule (env : Env) (ctx : Context) (core : Core) (col : Column) :
    ((containsColon col.alias_ = true ∧
        ∃ k ∈ rowIdAliases ctx, qtext k = qtext (leftOfColon col.alias_)) ↔
      ∀ rest, execLoop env ([] ++ rowIdAliases ctx) (col :: rest) ctx core =
        execLoop env ([] ++ rowIdAliases ctx) rest (getResultColumn env ctx col).2 core) ∧
    (getResultColumn env ctx col).2.resultColumns = ctx.resultColumns ∧
    (¬ (containsColon col.alias_ = true ∧
        ∃ k ∈ rowIdAliases ctx, qtext k = qtext (leftOfColon col.alias_)) →
      (execLoop env ([] ++ rowIdAliases ctx) [col] ctx core).1 = false ∨
      ∃ r, (execLoop env ([] ++ rowIdAliases ctx) [col] ctx core).2.2.resultColumns =
        core.resultColumns ++ [r]) := by
  have hd := dropped_iff ctx [] col
  simp only [List.nil_append] at hd ⊢
  have hnot : dropped (rowIdAliases ctx) col = false →
      (execLoop env (rowIdAliases ctx) [col] ctx core).1 = false ∨
      ∃ r, (execLoop env (rowIdAliases ctx) [col] ctx core).2.2.resultColumns =
        core.resultColumns ++ [r] := by
    intro hdf
    rw [execLoop_cons]
    simp only [hdf, Bool.false_eq_true, if_false]
    split
    · exact Or.inl rfl
    · rename_i r _
      right
      exact ⟨r, by simp [execLoop]⟩
  refine ⟨?_, by rw [getResultColumn_eq], ?_⟩
  · rw [← hd]
    constructor
    · intro h rest
      rw [execLoop_cons, if_pos h, getResultColumn_eq]
    · intro h
      cases hdf : dropped (rowIdAliases ctx) col with
      | true => rfl
      | false =>
        have h1 : execLoop env (rowIdAliases ctx) [col] ctx core =
            (true, (getResultColumn env ctx col).2, core) := h []
        rcases hnot hdf with h2 | ⟨r, h2⟩
        · rw [h1] at h2
          cases h2
        · rw [h1] at h2
          simp at h2
  · intro h
    apply hnot
    cases hdf : dropped (rowIdAliases ctx) col with
    | false => rfl
    | true => exact absurd (hd.mp hdf) h

theorem numbered_snd (ctx : Context) (cols : List Column) :
    ∀ n, (numbered ctx n cols).map Prod.snd = cols := by
  induction cols with
  | nil => intro n; rfl
  | cons col rest ih => intro n; simp [numbered, ih]

theorem getResultColumn_at (env : Env) (ctx : Context) (n : Nat) (col : Column) :
    getResultColumn env { ctx with colNameSeq := n } col =
      (resultColumnAt env ctx n col, { ctx with colNameSeq := seqAfter ctx n col }) := by
  rw [getResultColumn_eq]
  have h : ({ ctx with colNameSeq := n } : Context).rowIdColumns = ctx.rowIdColumns := rfl
  simp only [resultColumnAt_congr env h, seqAfter_congr h]

theorem storedColumns_eq_numbered (env : Env) (names : List QString) (ctx : Context)
    (cols : List Column) :
    ∀ n, storedColumns env names ctx n cols =
      ((numbered ctx n cols).filter (fun p => !isRowIdColumn names p.2.alias_)).map
        (fun p => resultColumnAt env ctx p.1 p.2) := by
  induction cols with
  | nil => intro n; rfl
  | cons col rest ih =>
    intro n
    simp only [storedColumns, numbered, ih]
    cases h : isRowIdColumn names col.alias_ <;> simp [List.filter_cons, h]

theorem getResultColumnForSelect_congr (env : Env) {ctx1 ctx2 : Context}
    (h : ctx1.dbNameToAttach = ctx2.dbNameToAttach) (rc : ResultColumn) (col : Column) :
    getResultColumnForSelect env ctx1 rc col = getResultColumnForSelect env ctx2 rc col := by
  simp only [getResultColumnForSelect, qualify, h]

/-- On success the core holds its former result columns followed by the rebuilt columns
of the resolved columns that are not dropped, in their order. -/
theorem execLoop_rebuilt (env : Env) (names : List QString) (ctx0 : Context)
    (cols : List Column) :
    ∀ (ctx : Context) (core : Core), ctx.rowIdColumns = ctx0.rowIdColumns →
      ctx.dbNameToAttach = ctx0.dbNameToAttach →
      (execLoop env names cols ctx core).1 = true →
      (execLoop env names cols ctx core).2.2.resultColumns.map some =
        core.resultColumns.map some ++
          ((numbered ctx0 ctx.colNameSeq cols).filter (fun p => !dropped names p.2)).map
            (fun p => getResultColumnForSelect env ctx0 (resultColumnAt env ctx0 p.1 p.2) p.2) := by
  induction cols with
  | nil => intro ctx core _ _ _; simp [execLoop, numbered]
  | cons col rest ih =>
    intro ctx core hctx hdb hok
    rw [execLoop_cons] at hok ⊢
    have hs := seqAfter_congr hctx ctx.colNameSeq col
    have hr := resultColumnAt_congr env hctx ctx.colNameSeq col
    by_cases hd : dropped names col = true
    · simp only [hd, if_true] at hok ⊢
      rw [ih _ core (by simpa using hctx) (by simpa using hdb) hok]
      simp [numbered, List.filter_cons, hd, hs]
    · simp only [hd] at hok ⊢
      simp only [Bool.false_eq_true, if_false] at hok ⊢
      have hg := getResultColumnForSelect_congr env
        (show ({ ctx with colNameSeq := seqAfter ctx ctx.colNameSeq col } : Context).dbNameToAttach
          = ctx0.dbNameToAttach from hdb) (resultColumnAt env ctx ctx.colNameSeq col) col
      split at hok
      · simp at hok
      · rename_i r hr1
        rw [hr1] at hg
        by_cases hrow : isRowIdColumn names col.alias_ = true
        · simp only [hrow, Bool.not_true, Bool.false_eq_true, if_false] at hok ⊢
          rw [ih _ _ (by simpa using hctx) (by simpa using hdb) hok]
          simp [numbered, List.filter_cons, hd, hs, ← hr, ← hg]
        · simp only [hrow, Bool.not_false, if_true] at hok ⊢
          rw [ih _ _ (by simpa using hctx) (by simpa using hdb) hok]
          simp [numbered, List.filter_cons, hd, hs, ← hr, ← hg]

theorem exec_firstCore (env : Env) (s : Step) (sel : SqliteSelect)
    (hsel : s.select = some sel) (hx : sel.explain = false)
    (hok : (exec env s).1 = true) :
    ∃ sel', (exec env s).2.select = some sel' ∧
      sel'.firstCore = (execLoop env (s.rowIdColNames ++ rowIdAliases s.context)
        (env.resolve s.context.dbNameToAttach sel).columns s.context ⟨[]⟩).2.2 ∧
      sel'.otherCores = sel.otherCores ∧ sel'.explain = sel.explain := by
  obtain ⟨herr, hcols, hloop⟩ := exec_true_loop env s sel hsel hx hok
  have hlen : ((env.resolve s.context.dbNameToAttach sel).columns.length == 0) = false := by
    cases h : (env.resolve s.context.dbNameToAttach sel).columns with
    | nil => exact absurd h hcols
    | cons a l => rfl
  simp only [exec, hsel, hx, herr, hlen, Bool.false_eq_true, if_false]
  generalize execLoop env (s.rowIdColNames ++ rowIdAliases s.context)
      (env.resolve s.context.dbNameToAttach sel).columns s.context ⟨[]⟩ = r at hloop ⊢
  obtain ⟨b, c, k⟩ := r
  simp only at hloop
  subst hloop
  exact ⟨_, rfl, rfl, rfl, rfl⟩

/-- C17: a successful `exec` preserves the resolution order. With the resolved columns
numbered by the value of the alias counter at which each is classified, the result
columns of the first core are the columns that `getResultColumnForSelect` rebuilds from
exactly the resolved columns that are not dropped, in their order, and the result columns
appended to the list of the context are the result columns that `getResultColumn` builds
for exactly the resolved columns that `isRowIdColumn` does not recognise, in their order. -/
theorem resolution_order (env : Env) (s : Step) (sel : SqliteSelect)
    (hsel : s.select = some sel) (hx : sel.explain = false)
    (hok : (exec env s).1 = true) :
    (numbered s.context s.context.colNameSeq
      (env.resolve s.context.dbNameToAttach sel).columns).map Prod.snd =
      (env.resolve s.context.dbNameToAttach sel).columns ∧
    (∃ sel', (exec env s).2.select = some sel' ∧
      sel'.firstCore.resultColumns.map some =
        ((numbered s.context s.context.colNameSeq
          (env.resolve s.context.dbNameToAttach sel).columns).filter
            (fun p => !dropped (s.rowIdColNames ++ rowIdAliases s.context) p.2)).map
          (fun p => getResultColumnForSelect env s.context
            (getResultColumn env { s.context with colNameSeq := p.1 } p.2).1 p.2)) ∧
    (exec env s).2.context.resultColumns =
      s.context.resultColumns ++
        ((numbered s.context s.context.colNameSeq
          (env.resolve s.context.dbNameToAttach sel).columns).filter
            (fun p => !isRowIdColumn (s.rowIdColNames ++ rowIdAliases s.context) p.2.alias_)).map
          (fun p => (getResultColumn env { s.context with colNameSeq := p.1 } p.2).1) := by
  obtain ⟨_, hloop⟩ := (exec_true_loop env s sel hsel hx hok).2
  obtain ⟨_, h2, _⟩ := exec_success env s sel hsel hx hok
  obtain ⟨sel', hs1, hs2, _⟩ := exec_firstCore env s sel hsel hx hok
  have hre := execLoop_rebuilt env (s.rowIdColNames ++ rowIdAliases s.context) s.context
    (env.resolve s.context.dbNameToAttach sel).columns s.context ⟨[]⟩ rfl rfl hloop
  refine ⟨numbered_snd _ _ _, ⟨sel', hs1, ?_⟩, ?_⟩
  · rw [hs2, hre]
    simp [getResultColumn_at]
  · rw [h2, storedColumns_eq_numbered]
    simp [getResultColumn_at]

/-- Witness for C17: the upstream alias `ResCol_0`; the resolver yields that alias, its
duplicate `ResCol_0:1` and the columns `a`, `b`. The context gets `a` and `b`. -/
theorem resolution_order_witness :
    (exec (sampleEnv [{ sampleColumn "t" "rowid" with alias_ := some "ResCol_0" },
        { sampleColumn "t" "rowid" with alias_ := some "ResCol_0:1" },
        sampleColumn "t" "a", sampleColumn "t" "b"])
      (sampleStep [⟨[(some "ResCol_0", some "rowid")]⟩] 1)).2.context.resultColumns.map
        (fun rc => (rc.column, rc.queryExecutorAlias)) =
      [(some "a", some "ResCol_2"), (some "b", some "ResCol_3")] :=
  ((congrArg (List.map (fun rc : ResultColumn => (rc.column, rc.queryExecutorAlias)))
    (resolution_order
      (sampleEnv [{ sampleColumn "t" "rowid" with alias_ := some "ResCol_0" },
        { sampleColumn "t" "rowid" with alias_ := some "ResCol_0:1" },
        sampleColumn "t" "a", sampleColumn "t" "b"])
      (sampleStep [⟨[(some "ResCol_0", some "rowid")]⟩] 1) sampleSelect rfl rfl
      (by decide)).2.2).trans (by decide))

theorem intercalate_cons_cons (sep x y : TokenList) (l : List TokenList) :
    List.intercalate sep (x :: y :: l) = x ++ sep ++ List.intercalate sep (y :: l) := by
  simp [List.intercalate, List.intersperse]

theorem intercalate_append_singleton (sep e : TokenList) (es : List TokenList) (h : es ≠ []) :
    List.intercalate sep (es ++ [e]) = List.intercalate sep es ++ sep ++ e := by
  induction es with
  | nil => exact absurd rfl h
  | cons x rest ih =>
    cases rest with
    | nil => simp [List.intercalate, List.intersperse]
    | cons y l =>
      have := ih (by simp)
      simp only [List.cons_append] at this ⊢
      rw [intercalate_cons_cons, this, intercalate_cons_cons]
      simp

/-- Appending one more column the way both loops of `wrapWithAliasedColumns` do keeps
the list under construction the columns joined by the separator. -/
theorem intercalate_add (first : Bool) (outer e : TokenList) (es : List TokenList)
    (hout : outer = List.intercalate sepTokens es) (hfirst : first = true ↔ es = []) :
    (if !first then outer ++ sepTokens else outer) ++ e =
      List.intercalate sepTokens (es ++ [e]) := by
  cases first with
  | true =>
    have : es = [] := hfirst.mp rfl
    subst this
    simp [hout, List.intercalate, List.intersperse]
  | false =>
    have hne : es ≠ [] := fun h0 => by simpa using hfirst.mpr h0
    rw [intercalate_append_singleton _ _ _ hne, hout]
    simp

theorem wrapRowIdAlias_join (keys : List QString) : ∀ (w : WrapState) (es : List TokenList),
    w.outerColumns = List.intercalate sepTokens es → (w.first = true ↔ es = []) →
    (keys.foldl wrapRowIdAlias w).outerColumns =
      List.intercalate sepTokens (es ++ keys.map (fun a => [(⟨.OTHER, qtext a⟩ : Token)])) ∧
    ((keys.foldl wrapRowIdAlias w).first = true ↔
      es ++ keys.map (fun a => [(⟨.OTHER, qtext a⟩ : Token)]) = []) := by
  induction keys with
  | nil => intro w es h1 h2; simpa using ⟨h1, h2⟩
  | cons a rest ih =>
    intro w es h1 h2
    have hadd := intercalate_add w.first w.outerColumns [⟨.OTHER, qtext a⟩] es h1 h2
    have := ih (wrapRowIdAlias w a) (es ++ [[⟨.OTHER, qtext a⟩]])
      (by simp only [wrapRowIdAlias]; exact hadd) (by simp [wrapRowIdAlias])
    simpa using this

theorem wrapRowIdColumns_join (cols : List ResultRowIdColumn) :
    ∀ (w : WrapState) (es : List TokenList),
    w.outerColumns = List.intercalate sepTokens es → (w.first = true ↔ es = []) →
    (wrapRowIdColumns cols w).outerColumns =
      List.intercalate sepTokens
        (es ++ (cols.flatMap (fun r => r.keys)).map (fun a => [(⟨.OTHER, qtext a⟩ : Token)])) ∧
    ((wrapRowIdColumns cols w).first = true ↔
      es ++ (cols.flatMap (fun r => r.keys)).map (fun a => [(⟨.OTHER, qtext a⟩ : Token)]) = []) := by
  induction cols with
  | nil => intro w es h1 h2; simpa [wrapRowIdColumns] using ⟨h1, h2⟩
  | cons r rest ih =>
    intro w es h1 h2
    obtain ⟨k1, k2⟩ := wrapRowIdAlias_join r.keys w es h1 h2
    have hstep : wrapRowIdColumns (r :: rest) w =
        wrapRowIdColumns rest (r.keys.foldl wrapRowIdAlias w) := by
      simp [wrapRowIdColumns]
    rw [hstep]
    have := ih (r.keys.foldl wrapRowIdAlias w) _ k1 k2
    simpa using this

theorem wrapResultColumn_join (env : Env) (rcs : List ResultColumn) :
    ∀ (w : WrapState) (es : List TokenList),
    w.outerColumns = List.intercalate sepTokens es → (w.first = true ↔ es = []) →
    (rcs.foldl (wrapResultColumn env) w).outerColumns =
      List.intercalate sepTokens (es ++ resultColumnEntries env w.columnNamesUsed rcs) := by
  induction rcs with
  | nil => intro w es h1 _; simpa [resultColumnEntries] using h1
  | cons rc rest ih =>
    intro w es h1 h2
    have hadd := intercalate_add w.first w.outerColumns
      (columnTokens env w.columnNamesUsed rc) es h1 h2
    have := ih (wrapResultColumn env w rc) (es ++ [columnTokens env w.columnNamesUsed rc])
      (by rw [wrapResultColumn_eq]; exact hadd) (by rw [wrapResultColumn_eq]; simp)
    rw [List.foldl_cons, this, wrapResultColumn_eq]
    simp [resultColumnEntries]

/-- The outer column list is its columns joined by the separator. -/
theorem outerColumns_join (env : Env) (ctx : Context) :
    outerColumns env ctx = List.intercalate sepTokens
      ((rowIdAliases ctx).map (fun a => [(⟨.OTHER, qtext a⟩ : Token)]) ++
        resultColumnEntries env [] ctx.resultColumns) := by
  obtain ⟨k1, k2⟩ := wrapRowIdColumns_join ctx.rowIdColumns ⟨true, [], []⟩ []
    (by simp [List.intercalate]) (by simp)
  have k3 := (wrapRowIdColumns_fold ctx.rowIdColumns ⟨true, [], []⟩ (by simp)).2.2
  have := wrapResultColumn_join env ctx.resultColumns _ _ k1 k2
  unfold outerColumns
  rw [this, k3]
  simp [rowIdAliases]

theorem storedColumns_no_names (env : Env) (ctx : Context) (cols : List Column)
    (h : cols ≠ []) (n : Nat) : storedColumns env [] ctx n cols ≠ [] := by
  cases cols with
  | nil => exact absurd rfl h
  | cons col rest => simp [storedColumns, isRowIdColumn, qcontains]

/-- C20: after a successful `exec` on a SELECT, `rowIdColNames` empty before, the outer
column list is well separated and not empty: it is a list of at least one column, the
columns joined by the separator `, `, where no column is empty and no column contains
the comma token of the separator. So one separator stands between each two consecutive
columns, none leads and none trails. The columns are the row-id aliases, if any,
followed by the columns of the result columns of the context, if any. -/
theorem outer_columns_separated (env : Env) (s : Step) (sel : SqliteSelect)
    (hsel : s.select = some sel) (hx : sel.explain = false)
    (hok : (exec env s).1 = true) (hnames : s.rowIdColNames = []) :
    ∃ columns : List TokenList,
      columns = (rowIdAliases s.context).map (fun a => [(⟨.OTHER, qtext a⟩ : Token)]) ++
        resultColumnEntries env [] (exec env s).2.context.resultColumns ∧
      columns ≠ [] ∧
      (∀ c ∈ columns, c ≠ [] ∧ ∀ t ∈ c, t ≠ commaToken) ∧
      outerColumns env (exec env s).2.context = List.intercalate sepTokens columns ∧
      columnsOf (outerColumns env (exec env s).2.context) = columns := by
  obtain ⟨h1, h2, _⟩ := exec_success env s sel hsel hx hok
  obtain ⟨_, hcols, _⟩ := exec_true_loop env s sel hsel hx hok
  refine ⟨_, rfl, ?_, ?_, ?_, ?_⟩
  · intro hempty
    have he := List.append_eq_nil.mp hempty
    have hk : rowIdAliases s.context = [] := by simpa using he.1
    have hr : (exec env s).2.context.resultColumns = [] := by
      have := congrArg List.length he.2
      rw [resultColumnEntries_length] at this
      exact List.length_eq_zero.mp this
    rw [h2, hnames, hk] at hr
    have := (List.append_eq_nil.mp hr).2
    exact storedColumns_no_names env s.context _ hcols _ this
  · intro c hc
    rcases List.mem_append.mp hc with hc | hc
    · obtain ⟨a, _, rfl⟩ := List.mem_map.mp hc
      exact ⟨by simp, by simp [commaToken]⟩
    · obtain ⟨rc, _, u, rfl⟩ := resultColumnEntries_mem env _ _ _ hc
      exact ⟨columnTokens_ne_nil env u rc, columnTokens_commaFree env u rc⟩
  · rw [outerColumns_join, rowIdAliases_congr h1]
  · rw [columnsOf_outerColumns, rowIdAliases_congr h1]

/-- Witness for C20: every resolved column is a row-id column (the upstream alias and
its duplicate); the outer column list is the single column `ResCol_0`. -/
theorem outer_columns_separated_witness :
    outerColumns (sampleEnv [{ sampleColumn "t" "rowid" with alias_ := some "ResCol_0" },
        { sampleColumn "t" "rowid" with alias_ := some "ResCol_0:1" }])
      (exec (sampleEnv [{ sampleColumn "t" "rowid" with alias_ := some "ResCol_0" },
        { sampleColumn "t" "rowid" with alias_ := some "ResCol_0:1" }])
      (sampleStep [⟨[(some "ResCol_0", some "rowid")]⟩] 1)).2.context =
      List.intercalate sepTokens [[⟨.OTHER, "ResCol_0"⟩]] :=
  (outer_columns_separated
    (sampleEnv [{ sampleColumn "t" "rowid" with alias_ := some "ResCol_0" },
        { sampleColumn "t" "rowid" with alias_ := some "ResCol_0:1" }])
    (sampleStep [⟨[(some "ResCol_0", some "rowid")]⟩] 1) sampleSelect rfl rfl
    (by decide) rfl).elim fun columns h => h.2.2.2.1.trans (by rw [h.1]; decide)

/-! ## Lemmas on the collision scan -/

theorem eqCI_iff (a b : String) : eqCI a b = true ↔ ciKey a = ciKey b := by
  simp [eqCI, ciKey]

theorem containsCI_iff (used : List String) (a : String) :
    containsCI used a = true ↔ ciKey a ∈ used.map ciKey := by
  simp only [containsCI, List.any_eq_true, eqCI_iff, List.mem_map]

theorem digitChar_fold : ∀ d < 10, foldCase (Nat.digitChar d) = Nat.digitChar d := by
  decide

theorem toDigitsCore_fold (fuel : Nat) : ∀ (n : Nat) (ds : List Char),
    (∀ c ∈ ds, foldCase c = c) → ∀ c ∈ Nat.toDigitsCore 10 fuel n ds, foldCase c = c := by
  induction fuel with
  | zero => intro n ds h; simpa [Nat.toDigitsCore] using h
  | succ f ih =>
    intro n ds h
    have hd : foldCase (Nat.digitChar (n % 10)) = Nat.digitChar (n % 10) :=
      digitChar_fold _ (Nat.mod_lt _ (by decide))
    have hds : ∀ c ∈ Nat.digitChar (n % 10) :: ds, foldCase c = c := by
      intro c hc
      rcases List.mem_cons.mp hc with rfl | hc
      · exact hd
      · exact h c hc
    simp only [Nat.toDigitsCore]
    split
    · exact hds
    · exact ih _ _ hds

theorem ciKey_toString (i : Nat) : ciKey (toString i) = (toString i).data := by
  have h : ∀ c ∈ (toString i).data, foldCase c = c := by
    show ∀ c ∈ (Nat.repr i).data, foldCase c = c
    simp only [Nat.repr, Nat.toDigits, List.asString]
    exact toDigitsCore_fold _ _ _ (by simp)
  unfold ciKey
  exact (List.map_congr_left h).trans (List.map_id _)

theorem ciKey_colNameTpl (column : String) (i : Nat) :
    ciKey (colNameTpl column i) = ciKey column ++ ':' :: (toString i).data := by
  have h := ciKey_toString i
  simp only [ciKey] at h ⊢
  simp only [colNameTpl, String.data_append, List.map_append, h]
  have : (":" : String).data.map foldCase = [':'] := by decide
  rw [this]
  simp

theorem ciKey_colNameTpl_inj (column : String) (i j : Nat)
    (h : ciKey (colNameTpl column i) = ciKey (colNameTpl column j)) : i = j := by
  rw [ciKey_colNameTpl, ciKey_colNameTpl] at h
  have h1 := List.append_cancel_left h
  have h2 : (toString i).data = (toString j).data := by
    injection h1
  exact toString_nat_inj i j (String.ext h2)

/-- Among the names `column:start`, ..., `column:(start + n)` one is not among `n` names
used. -/
theorem exists_free_name (used : List String) (column : String) (start : Nat) :
    ∃ N, start ≤ N ∧ N ≤ start + used.length ∧ containsCI used (colNameTpl column N) = false := by
  by_contra hcon
  have hall : ∀ k, k < used.length + 1 →
      ciKey (colNameTpl column (start + k)) ∈ used.map ciKey := by
    intro k hk
    by_contra hmem
    apply hcon
    refine ⟨start + k, by omega, by omega, ?_⟩
    cases h : containsCI used (colNameTpl column (start + k)) with
    | false => rfl
    | true => exact absurd ((containsCI_iff _ _).mp h) hmem
  have hnodup : ((List.range (used.length + 1)).map
      (fun k => ciKey (colNameTpl column (start + k)))).Nodup := by
    refine List.Nodup.map (fun a b h => ?_) (List.nodup_range _)
    have := ciKey_colNameTpl_inj column _ _ h
    omega
  have hsub : (List.range (used.length + 1)).map
      (fun k => ciKey (colNameTpl column (start + k))) ⊆ used.map ciKey := by
    intro x hx
    obtain ⟨k, hk, rfl⟩ := List.mem_map.mp hx
    exact hall k (List.mem_range.mp hk)
  have hlen := (List.subperm_of_subset hnodup hsub).length_le
  simp at hlen

/-- The bounded scan of the embedding computes the name with which the unbounded loop
halts, as long as a free name lies within reach of the bound. -/
theorem scanColName_halts (used : List String) (column : String) (fuel : Nat) :
    ∀ (i : Nat) (colName : String),
      (containsCI used colName = false ∨
        ∃ N, i ≤ N ∧ N < i + fuel ∧ containsCI used (colNameTpl column N) = false) →
      ScanHalts used column i colName (scanColName used column fuel i colName) := by
  induction fuel with
  | zero =>
    intro i colName h
    rcases h with h | ⟨N, h1, h2, _⟩
    · exact ScanHalts.stop i colName h
    · omega
  | succ f ih =>
    intro i colName h
    cases hc : containsCI used colName with
    | false =>
      simp only [scanColName, hc, Bool.false_eq_true, if_false]
      exact ScanHalts.stop i colName hc
    | true =>
      simp only [scanColName, hc, if_true]
      apply ScanHalts.pass i colName _ hc
      apply ih
      rcases h with h | ⟨N, h1, h2, h3⟩
      · rw [hc] at h; cases h
      · by_cases hN : N = i
        · subst hN; exact Or.inl h3
        · exact Or.inr ⟨N, by omega, by omega, h3⟩

/-- What the loop is left with: a name that is not among the names used; the candidate
it was entered with when that is free, and otherwise the first free name of the template
from the counter on. -/
theorem ScanHalts_result {used : List String} {column : String} {i : Nat}
    {colName result : String} (h : ScanHalts used column i colName result) :
    containsCI used result = false ∧
    (containsCI used colName = false → result = colName) ∧
    (containsCI used colName = true →
      ∃ N, i ≤ N ∧ result = colNameTpl column N ∧
        ∀ M, i ≤ M → M < N → containsCI used (colNameTpl column M) = true) := by
  induction h with
  | stop i colName hfree =>
    exact ⟨hfree, fun _ => rfl, fun h => by rw [hfree] at h; cases h⟩
  | pass i colName result hused _ ih =>
    obtain ⟨h1, h2, h3⟩ := ih
    refine ⟨h1, ?_, fun _ => ?_⟩
    · intro h; rw [hused] at h; cases h
    cases hc : containsCI used (colNameTpl column i) with
    | false =>
      exact ⟨i, le_refl _, h2 hc, fun M hM1 hM2 => by omega⟩
    | true =>
      obtain ⟨N, hN1, hN2, hN3⟩ := h3 hc
      refine ⟨N, by omega, hN2, fun M hM1 hM2 => ?_⟩
      by_cases hMi : M = i
      · subst hMi; exact hc
      · exact hN3 M (by omega) hM2

theorem ScanHalts_unique {used : List String} {column : String} {i : Nat}
    {colName r1 r2 : String} (h1 : ScanHalts used column i colName r1)
    (h2 : ScanHalts used column i colName r2) : r1 = r2 := by
  induction h1 with
  | stop i colName hfree =>
    cases h2 with
    | stop => rfl
    | pass _ _ _ hused _ => rw [hfree] at hused; cases hused
  | pass i colName result hused _ ih =>
    cases h2 with
    | stop _ _ hfree => rw [hfree] at hused; cases hused
    | pass _ _ _ _ hrest => exact ih hrest

theorem scan_halts (used : List String) (column base : String) :
    ScanHalts used column 1 base (scanColName used column (used.length + 1) 1 base) := by
  apply scanColName_halts
  obtain ⟨N, h1, h2, h3⟩ := exists_free_name used column 1
  exact Or.inr ⟨N, h1, by omega, h3⟩

theorem wrapResultColumn_names (env : Env) (rcs : List ResultColumn) :
    ∀ w : WrapState, (rcs.foldl (wrapResultColumn env) w).columnNamesUsed =
      rcs.foldl namesUsedAfter w.columnNamesUsed := by
  induction rcs with
  | nil => intro w; rfl
  | cons rc rest ih =>
    intro w
    rw [List.foldl_cons, ih, wrapResultColumn_eq]
    rfl

theorem namesUsedAfter_pairwise (used : List String) (rc : ResultColumn)
    (h : used.Pairwise (fun a b => eqCI a b = false)) :
    (namesUsedAfter used rc).Pairwise (fun a b => eqCI a b = false) := by
  unfold namesUsedAfter
  split
  · have hfree := (ScanHalts_result (scan_halts used (qtext rc.column)
      (qtext (baseColName rc)))).1
    rw [List.pairwise_append]
    refine ⟨h, by simp, ?_⟩
    intro a ha b hb
    rw [List.mem_singleton.mp hb]
    cases hab : eqCI a (scanColName used (qtext rc.column) (used.length + 1) 1
        (qtext (baseColName rc))) with
    | false => rfl
    | true =>
      have : containsCI used (scanColName used (qtext rc.column) (used.length + 1) 1
          (qtext (baseColName rc))) = true := by
        simp only [containsCI, List.any_eq_true]
        exact ⟨a, ha, hab⟩
      rw [this] at hfree; cases hfree
  · exact h

theorem foldl_namesUsedAfter_pairwise (rcs : List ResultColumn) :
    ∀ used : List String, used.Pairwise (fun a b => eqCI a b = false) →
      (rcs.foldl namesUsedAfter used).Pairwise (fun a b => eqCI a b = false) := by
  induction rcs with
  | nil => intro used h; exact h
  | cons rc rest ih =>
    intro used h
    exact ih _ (namesUsedAfter_pairwise used rc h)

/-- C11: the names that the second loop of `wrapWithAliasedColumns` emits over the
result columns of the context (the list `columnNamesUsed`, names before quoting) are
pairwise distinct under case-insensitive comparison. The collision scan, whatever the
names used, the column name and the base name, halts, and the bounded scan of the
embedding returns the one name it halts with. That name is not among the names used; it
is the base name when that is free, and otherwise `column:N` for the least `N ≥ 1` such
that `column:N` is not among the names used. -/
theorem collision_scan (env : Env) (ctx : Context) (used : List String)
    (column base : String) :
    ((ctx.resultColumns.foldl (wrapResultColumn env)
      (wrapRowIdColumns ctx.rowIdColumns ⟨true, [], []⟩)).columnNamesUsed).Pairwise
        (fun a b => eqCI a b = false) ∧
    ScanHalts used column 1 base (scanColName used column (used.length + 1) 1 base) ∧
    (∀ r, ScanHalts used column 1 base r →
      r = scanColName used column (used.length + 1) 1 base) ∧
    containsCI used (scanColName used column (used.length + 1) 1 base) = false ∧
    (containsCI used base = false →
      scanColName used column (used.length + 1) 1 base = base) ∧
    (containsCI used base = true →
      ∃ N, 1 ≤ N ∧ scanColName used column (used.length + 1) 1 base = colNameTpl column N ∧
        ∀ M, 1 ≤ M → M < N → containsCI used (colNameTpl column M) = true) := by
  have hh := scan_halts used column base
  obtain ⟨r1, r2, r3⟩ := ScanHalts_result hh
  refine ⟨?_, hh, fun r hr => ScanHalts_unique hr hh, r1, r2, r3⟩
  rw [wrapResultColumn_names]
  have k3 := (wrapRowIdColumns_fold ctx.rowIdColumns ⟨true, [], []⟩ (by simp)).2.2
  rw [k3]
  exact foldl_namesUsedAfter_pairwise _ _ List.Pairwise.nil

/-! ## Lemmas on the names of the outer column list -/

theorem scanColName_free (used : List String) (column base : String) (fuel : Nat)
    (h : containsCI used base = false) :
    scanColName used column (fuel + 1) 1 base = base := by
  simp [scanColName, h]

/-- A result column stored by the loop of `exec` has a generated alias that is not null,
and its user alias is null only when the generated alias was minted. -/
theorem stored_alias (env : Env) (ctx : Context) (names : List QString) (n : Nat)
    (col : Column) (hrow : isRowIdColumn (names ++ rowIdAliases ctx) col.alias_ = false) :
    isNull (resultColumnAt env ctx n col).queryExecutorAlias = false ∧
    (resultColumnAt env ctx n col).alias_ = col.alias_ ∧
    (isNull col.alias_ = true →
      (resultColumnAt env ctx n col).queryExecutorAlias = some ("ResCol_" ++ toString n)) := by
  have halias : (resultColumnAt env ctx n col).alias_ = col.alias_ := by
    simp [resultColumnAt, classify_alias]
  by_cases hal : isRowIdColumnAlias ctx col.alias_ = true
  · have hcolon : containsColon col.alias_ = true := by
      cases h : containsColon col.alias_ with
      | true => rfl
      | false =>
        rw [isRowIdColumn_of_alias ctx names col.alias_ hal h] at hrow
        cases hrow
    have hnn : isNull col.alias_ = false := by
      cases h : col.alias_ with
      | none => rw [h] at hcolon; simp [containsColon, qtext] at hcolon
      | some x => rfl
    refine ⟨by simp [resultColumnAt, hal, hnn], halias, ?_⟩
    intro h; rw [hnn] at h; cases h
  · have hal1 : isRowIdColumnAlias ctx col.alias_ = false := by simpa using hal
    exact ⟨by simp [resultColumnAt, hal1, isNull], halias, fun _ => by simp [resultColumnAt, hal1]⟩

theorem baseColName_stored (env : Env) (ctx : Context) (names : List QString) (n : Nat)
    (col : Column) (hrow : isRowIdColumn (names ++ rowIdAliases ctx) col.alias_ = false) :
    baseColName (resultColumnAt env ctx n col) = col.alias_ := by
  obtain ⟨h1, h2, _⟩ := stored_alias env ctx names n col hrow
  simp [baseColName, h1, h2]

/-- C18: for a resolved column that the loop of `exec` stores in the context (the
result column is the one `getResultColumn` builds, the column is not recognised by
`isRowIdColumn`) and rebuilds into the inner SELECT, the name by which the outer SELECT
reads the column, when its human-readable name is not among the names used before it,
is the alias that `getResultColumnForSelect` gave the rebuilt column: the user alias
when that is not null, and the generated alias otherwise. The tokens of the column are
that name alone in the second case, and in the first the name, quoted if needed,
followed by `AS` and the generated alias. -/
theorem outer_name_is_inner_alias (env : Env) (ctx ctx2 : Context) (names : List QString)
    (col : Column) (used : List String) (r : CoreResultColumn)
    (hstored : isRowIdColumn (names ++ rowIdAliases ctx) col.alias_ = false)
    (hinner : getResultColumnForSelect env ctx2 (getResultColumn env ctx col).1 col = some r)
    (hfree : isNull (baseColName (getResultColumn env ctx col).1) = false →
      containsCI used (qtext (baseColName (getResultColumn env ctx col).1)) = false) :
    readName used (getResultColumn env ctx col).1 = qtext r.alias_ ∧
    r.alias_ = (if !(isNull col.alias_) then col.alias_
      else (getResultColumn env ctx col).1.queryExecutorAlias) ∧
    (isNull col.alias_ = true →
      columnTokens env used (getResultColumn env ctx col).1 = [⟨.OTHER, qtext r.alias_⟩]) ∧
    (isNull col.alias_ = false →
      columnTokens env used (getResultColumn env ctx col).1 =
        [⟨.OTHER, env.wrapObjIfNeeded (qtext r.alias_)⟩, ⟨.SPACE, " "⟩, ⟨.KEYWORD, "AS"⟩,
          ⟨.SPACE, " "⟩, ⟨.OTHER, qtext (getResultColumn env ctx col).1.queryExecutorAlias⟩]) := by
  rw [getResultColumn_eq] at hinner hfree ⊢
  simp only at hinner hfree ⊢
  have hbase := baseColName_stored env ctx names ctx.colNameSeq col hstored
  have hr : r.alias_ = (if !(isNull col.alias_) then col.alias_
      else (resultColumnAt env ctx ctx.colNameSeq col).queryExecutorAlias) := by
    unfold getResultColumnForSelect at hinner
    split at hinner
    · cases hinner
    · injection hinner with h; rw [← h]
  rw [hbase] at hfree
  cases hn : isNull col.alias_ with
  | true =>
    have hreq : r.alias_ = (resultColumnAt env ctx ctx.colNameSeq col).queryExecutorAlias := by
      rw [hr]; simp [hn]
    refine ⟨?_, by simp [hr, hn], ?_, ?_⟩
    · simp [readName, hbase, hn, hreq]
    · intro _; simp [columnTokens, hbase, hn, hreq]
    · intro h; cases h
  | false =>
    have hreq : r.alias_ = col.alias_ := by rw [hr]; simp [hn]
    have hscan := scanColName_free used (qtext (resultColumnAt env ctx ctx.colNameSeq col).column)
      (qtext col.alias_) used.length (hfree hn)
    refine ⟨?_, by simp [hr, hn], ?_, ?_⟩
    · simp [readName, hbase, hn, hreq, hscan]
    · intro h; cases h
    · intro _; simp [columnTokens, hbase, hn, hreq, hscan]

/-- Witness for C18: the table column `a` with the user alias `x`. -/
theorem outer_name_is_inner_alias_witness :
    readName [] (getResultColumn (sampleEnv []) (sampleContext [] 0)
      { sampleColumn "t" "a" with alias_ := some "x" }).1 = "x" :=
  (outer_name_is_inner_alias (sampleEnv []) (sampleContext [] 0) (sampleContext [] 0) []
    { sampleColumn "t" "a" with alias_ := some "x" } []
    ⟨⟨"a", none, some "t"⟩, true, some "x"⟩ (by decide) (by decide) (fun _ => by decide)).1

theorem eqCI_length (a b : String) (h : eqCI a b = true) : a.data.length = b.data.length := by
  have := congrArg List.length ((eqCI_iff a b).mp h)
  simpa [ciKey] using this

theorem eqCI_refl (a : String) : eqCI a a = true := (eqCI_iff a a).mpr rfl

theorem eqCI_colNameTpl (n : String) (i : Nat) : eqCI n (colNameTpl n i) = false := by
  cases h : eqCI n (colNameTpl n i) with
  | false => rfl
  | true =>
    have := eqCI_length _ _ h
    simp [colNameTpl, String.data_append] at this

/-- C9, amended: after a successful `exec` on a SELECT, the result column list of the
context empty before, the columns of the outer list that follow the row-id aliases are
the tokens of the result columns of the context, and for each of these result columns,
whatever the names used before it: when it carries a user alias the tokens are the pair
of the name (the user alias, or the `column:N` that the collision scan puts in its
place), quoted if needed, and the generated alias, with `AS` between them; when it
carries no user alias the tokens are the generated alias alone, for a table column as for
an expression. -/
theorem outer_column_tokens_rule (env : Env) (s : Step) (sel : SqliteSelect)
    (hsel : s.select = some sel) (hx : sel.explain = false)
    (hok : (exec env s).1 = true) (hempty : s.context.resultColumns = []) :
    columnsOf (outerColumns env (exec env s).2.context) =
      (rowIdAliases s.context).map (fun a => [(⟨.OTHER, qtext a⟩ : Token)]) ++
        resultColumnEntries env [] (exec env s).2.context.resultColumns ∧
    ∀ rc ∈ (exec env s).2.context.resultColumns, ∀ used : List String,
      (isNull rc.alias_ = false →
        columnTokens env used rc =
          [⟨.OTHER, env.wrapObjIfNeeded
              (scanColName used (qtext rc.column) (used.length + 1) 1 (qtext rc.alias_))⟩,
            ⟨.SPACE, " "⟩, ⟨.KEYWORD, "AS"⟩, ⟨.SPACE, " "⟩,
            ⟨.OTHER, qtext rc.queryExecutorAlias⟩]) ∧
      (isNull rc.alias_ = true →
        columnTokens env used rc = [⟨.OTHER, qtext rc.queryExecutorAlias⟩]) := by
  obtain ⟨h1, h2, _⟩ := exec_success env s sel hsel hx hok
  refine ⟨by rw [columnsOf_outerColumns, rowIdAliases_congr h1], ?_⟩
  intro rc hrc used
  rw [h2, hempty, List.nil_append] at hrc
  obtain ⟨col, _, m, _, hrow, rfl⟩ := storedColumns_mem env _ _ _ _ rc hrc
  have hbase := baseColName_stored env s.context s.rowIdColNames m col hrow
  have halias := (stored_alias env s.context s.rowIdColNames m col hrow).2.1
  rw [halias]
  refine ⟨?_, ?_⟩
  · intro hn
    simp [columnTokens, hbase, hn]
  · intro hn
    simp [columnTokens, hbase, hn]

/-- Witness for C9, amended: the column `a` with the user alias `x` and the column `b`
without one; the outer column list reads `x AS ResCol_0, ResCol_1`. -/
theorem outer_column_tokens_rule_witness :
    columnsOf (outerColumns
      (sampleEnv [{ sampleColumn "t" "a" with alias_ := some "x" }, sampleColumn "t" "b"])
      (exec (sampleEnv [{ sampleColumn "t" "a" with alias_ := some "x" }, sampleColumn "t" "b"])
        (sampleStep [] 0)).2.context) =
      [[⟨.OTHER, "x"⟩, ⟨.SPACE, " "⟩, ⟨.KEYWORD, "AS"⟩, ⟨.SPACE, " "⟩, ⟨.OTHER, "ResCol_0"⟩],
       [⟨.OTHER, "ResCol_1"⟩]] :=
  (outer_column_tokens_rule
    (sampleEnv [{ sampleColumn "t" "a" with alias_ := some "x" }, sampleColumn "t" "b"])
    (sampleStep [] 0) sampleSelect rfl rfl (by decide) rfl).1.trans (by decide)

/-- C10, amended: the resolver yields two columns both named `n`, there are no row-id
columns and the result column list of the context is empty before. After a successful
`exec` the outer column list has two columns and the two generated aliases differ. When
both resolved columns carry the user alias `n`, the columns are the name `n` and the
name `n:1`, each quoted if needed and followed by `AS` and its own generated alias. When
neither carries a user alias, the columns are the two generated aliases alone. -/
theorem colliding_names_rule (env : Env) (s : Step) (sel : SqliteSelect) (n : String)
    (c1 c2 : Column)
    (hsel : s.select = some sel) (hx : sel.explain = false)
    (hok : (exec env s).1 = true) (hempty : s.context.resultColumns = [])
    (hrow : s.context.rowIdColumns = []) (hnames : s.rowIdColNames = [])
    (hcols : (env.resolve s.context.dbNameToAttach sel).columns = [c1, c2])
    (hn1 : c1.column = some n) (hn2 : c2.column = some n) :
    "ResCol_" ++ toString s.context.colNameSeq ≠
      "ResCol_" ++ toString (s.context.colNameSeq + 1) ∧
    (c1.alias_ = some n → c2.alias_ = some n →
      columnsOf (outerColumns env (exec env s).2.context) =
        [[⟨.OTHER, env.wrapObjIfNeeded n⟩, ⟨.SPACE, " "⟩, ⟨.KEYWORD, "AS"⟩, ⟨.SPACE, " "⟩,
            ⟨.OTHER, "ResCol_" ++ toString s.context.colNameSeq⟩],
         [⟨.OTHER, env.wrapObjIfNeeded (n ++ ":" ++ "1")⟩, ⟨.SPACE, " "⟩, ⟨.KEYWORD, "AS"⟩,
            ⟨.SPACE, " "⟩, ⟨.OTHER, "ResCol_" ++ toString (s.context.colNameSeq + 1)⟩]]) ∧
    (c1.alias_ = none → c2.alias_ = none →
      columnsOf (outerColumns env (exec env s).2.context) =
        [[⟨.OTHER, "ResCol_" ++ toString s.context.colNameSeq⟩],
         [⟨.OTHER, "ResCol_" ++ toString (s.context.colNameSeq + 1)⟩]]) := by
  obtain ⟨h1, h2, _⟩ := exec_success env s sel hsel hx hok
  have hk : rowIdAliases s.context = [] := by simp [rowIdAliases, hrow]
  have hal : ∀ a, isRowIdColumnAlias s.context a = false := by
    intro a; simp [isRowIdColumnAlias, hrow]
  have hrc : ∀ a, isRowIdColumn ([] : List QString) a = false := by
    intro a; simp [isRowIdColumn, qcontains]
  have hcolumns : columnsOf (outerColumns env (exec env s).2.context) =
      resultColumnEntries env []
        [resultColumnAt env s.context s.context.colNameSeq c1,
         resultColumnAt env s.context (s.context.colNameSeq + 1) c2] := by
    rw [columnsOf_outerColumns, rowIdAliases_congr h1, hk, h2, hempty, hnames, hk, hcols]
    simp [storedColumns, hrc, seqAfter, hal]
  refine ⟨fun h => ?_, ?_, ?_⟩
  · have := fresh_inj _ _ h
    omega
  · intro ha1 ha2
    have hone : toString 1 = "1" := by decide
    have hscan : scanColName [n] n 2 1 n = n ++ ":" ++ "1" := by
      have h3 : containsCI [n] n = true := by simp [containsCI, eqCI_refl]
      have h4 : containsCI [n] (colNameTpl n 1) = false := by
        simp [containsCI, eqCI_colNameTpl]
      simp only [scanColName, h3, h4, if_true, Bool.false_eq_true, if_false]
      simp [colNameTpl, hone]
    have hfirst : scanColName [] n 1 1 n = n := by
      simp [scanColName, containsCI]
    rw [hcolumns]
    simp [resultColumnEntries, columnTokens, namesUsedAfter, baseColName, resultColumnAt,
      classify_alias, classify_column, hal, ha1, ha2, hn1, hn2, isNull, qtext, hscan, hfirst]
  · intro ha1 ha2
    rw [hcolumns]
    simp [resultColumnEntries, columnTokens, namesUsedAfter, baseColName, resultColumnAt,
      classify_alias, hal, ha1, ha2, isNull, qtext]

/-- Witness for C10, amended: the columns `id` of `t1` and `id` of `t2`, both with the
user alias `id`; the outer column list reads `id AS ResCol_0, [id:1] AS ResCol_1`. -/
theorem colliding_names_rule_witness :
    columnsOf (outerColumns
      (sampleEnv [{ sampleColumn "t1" "id" with alias_ := some "id" },
        { sampleColumn "t2" "id" with alias_ := some "id" }])
      (exec (sampleEnv [{ sampleColumn "t1" "id" with alias_ := some "id" },
        { sampleColumn "t2" "id" with alias_ := some "id" }]) (sampleStep [] 0)).2.context) =
      [[⟨.OTHER, "id"⟩, ⟨.SPACE, " "⟩, ⟨.KEYWORD, "AS"⟩, ⟨.SPACE, " "⟩, ⟨.OTHER, "ResCol_0"⟩],
       [⟨.OTHER, "[id:1]"⟩, ⟨.SPACE, " "⟩, ⟨.KEYWORD, "AS"⟩, ⟨.SPACE, " "⟩,
        ⟨.OTHER, "ResCol_1"⟩]] :=
  ((colliding_names_rule
    (sampleEnv [{ sampleColumn "t1" "id" with alias_ := some "id" },
      { sampleColumn "t2" "id" with alias_ := some "id" }])
    (sampleStep [] 0) sampleSelect "id"
    { sampleColumn "t1" "id" with alias_ := some "id" }
    { sampleColumn "t2" "id" with alias_ := some "id" }
    rfl rfl (by decide) rfl rfl rfl rfl rfl rfl).2.1 rfl rfl).trans (by decide)

/-! ## Lemmas on the row-id aliases in the outer column list -/

theorem projections_append (a : String) (l1 l2 : List TokenList) :
    projections a (l1 ++ l2) = projections a l1 + projections a l2 := by
  simp [projections]

theorem projections_of_none (a : String) (l : List TokenList)
    (h : ∀ c ∈ l, projectedAlias c ≠ some a) : projections a l = 0 := by
  simp only [projections, List.length_eq_zero, List.filter_eq_nil_iff, decide_eq_true_eq]
  exact h

theorem projections_cons (a : String) (c : TokenList) (l : List TokenList) :
    projections a (c :: l) =
      (if projectedAlias c = some a then 1 else 0) + projections a l := by
  unfold projections
  by_cases h : projectedAlias c = some a
  · rw [List.filter_cons_of_pos (by simpa using h)]
    simp [h, Nat.add_comm]
  · rw [List.filter_cons_of_neg (by simpa using h)]
    simp [h]

theorem projectedAlias_bare (t : String) :
    projectedAlias [(⟨.OTHER, t⟩ : Token)] = some t := rfl

theorem projections_bare (a : String) (texts : List String) (hn : texts.Nodup)
    (h : a ∈ texts) :
    projections a (texts.map (fun t => [(⟨.OTHER, t⟩ : Token)])) = 1 := by
  induction texts with
  | nil => cases h
  | cons t rest ih =>
    have hn1 := List.nodup_cons.mp hn
    rw [List.map_cons, projections_cons, projectedAlias_bare]
    by_cases ht : t = a
    · subst ht
      have hrest : projections t (rest.map (fun t => [(⟨.OTHER, t⟩ : Token)])) = 0 := by
        apply projections_of_none
        intro c hc hp
        obtain ⟨u, hu, rfl⟩ := List.mem_map.mp hc
        rw [projectedAlias_bare] at hp
        have : u = t := Option.some.inj hp
        exact hn1.1 (this ▸ hu)
      rw [hrest]
      simp
    · have hin : a ∈ rest := by
        rcases List.mem_cons.mp h with h1 | h1
        · exact absurd h1.symm ht
        · exact h1
      rw [ih hn1.2 hin]
      have : ¬ (some t = some a) := fun h0 => ht (Option.some.inj h0)
      simp [this]

theorem colNameTpl_colon (column : String) (i : Nat) :
    ':' ∈ (colNameTpl column i).data := by
  simp [colNameTpl, String.data_append]

/-- A column stored by the loop of `exec` is not recognised by `isRowIdColumnAlias`
either, when no row-id alias contains a colon. -/
theorem stored_not_recognised (ctx : Context) (names : List QString) (col : Column)
    (hcolon : ∀ k ∈ rowIdAliases ctx, containsColon k = false)
    (hrow : isRowIdColumn (names ++ rowIdAliases ctx) col.alias_ = false) :
    isRowIdColumnAlias ctx col.alias_ = false := by
  cases h : isRowIdColumnAlias ctx col.alias_ with
  | false => rfl
  | true =>
    obtain ⟨k, hk, hka⟩ := (isRowIdColumnAlias_iff ctx col.alias_).mp h
    have hc : containsColon col.alias_ = false := by
      rw [← containsColon_congr hka]; exact hcolon k hk
    rw [isRowIdColumn_of_alias ctx names col.alias_ h hc] at hrow
    cases hrow

/-- Neither the generated alias nor the name emitted in front of `AS` (before quoting) of
a stored column is a row-id alias, when no row-id alias contains a colon and none is a
name that the alias counter can still mint. -/
theorem stored_names_ne (env : Env) (ctx : Context) (names : List QString) (n m : Nat)
    (hnm : n ≤ m) (col : Column) (k : QString) (hk : k ∈ rowIdAliases ctx)
    (hcolon : ∀ k ∈ rowIdAliases ctx, containsColon k = false)
    (hfresh : ∀ k ∈ rowIdAliases ctx, ∀ i, n ≤ i → qtext k ≠ "ResCol_" ++ toString i)
    (hrow : isRowIdColumn (names ++ rowIdAliases ctx) col.alias_ = false)
    (used : List String) :
    qtext (resultColumnAt env ctx m col).queryExecutorAlias ≠ qtext k ∧
    (isNull (baseColName (resultColumnAt env ctx m col)) = false →
      scanColName used (qtext (resultColumnAt env ctx m col).column) (used.length + 1) 1
        (qtext (baseColName (resultColumnAt env ctx m col))) ≠ qtext k) := by
  have hal := stored_not_recognised ctx names col hcolon hrow
  have hq : qtext (resultColumnAt env ctx m col).queryExecutorAlias =
      "ResCol_" ++ toString m := by
    simp [resultColumnAt, hal, qtext]
  refine ⟨fun h => hfresh k hk m hnm (by rw [← h, hq]), ?_⟩
  intro _
  rw [baseColName_stored env ctx names m col hrow]
  obtain ⟨_, r2, r3⟩ := ScanHalts_result
    (scan_halts used (qtext (resultColumnAt env ctx m col).column) (qtext col.alias_))
  cases hc : containsCI used (qtext col.alias_) with
  | false =>
    rw [r2 hc]
    intro h
    have : isRowIdColumnAlias ctx col.alias_ = true :=
      (isRowIdColumnAlias_iff ctx col.alias_).mpr ⟨k, hk, h.symm⟩
    rw [hal] at this; cases this
  | true =>
    obtain ⟨N, _, hN, _⟩ := r3 hc
    rw [hN]
    intro h
    have h1 := colNameTpl_colon (qtext (resultColumnAt env ctx m col).column) N
    rw [h] at h1
    have h2 := hcolon k hk
    simp only [containsColon] at h2
    have : (qtext k).data.contains ':' = true := by simpa using h1
    rw [h2] at this; cases this

/-- C5, amended: after a successful `exec` on a SELECT, the result column list of the
context initially empty, every upstream row-id alias occurs exactly once among the
columns of the outer column list, whatever aliases the resolver output contains,
provided the upstream row-id aliases are pairwise distinct, none contains a colon and
none is a name `ResCol_n` that the alias counter can still mint. Exactly one column
consists of the alias alone, exactly one column projects the alias (has it as its last
token), every column that projects it is the alias alone, and for no result column of
the context is the generated alias or the name emitted in front of `AS` (before quoting,
whatever the names used before it) the alias. -/
theorem row_id_alias_once (env : Env) (s : Step) (sel : SqliteSelect)
    (hsel : s.select = some sel) (hx : sel.explain = false)
    (hok : (exec env s).1 = true)
    (hempty : s.context.resultColumns = [])
    (hkeys : ((rowIdAliases s.context).map qtext).Nodup)
    (hcolon : ∀ k ∈ rowIdAliases s.context, containsColon k = false)
    (hfresh : ∀ k ∈ rowIdAliases s.context, ∀ n, s.context.colNameSeq ≤ n →
      qtext k ≠ "ResCol_" ++ toString n)
    (k : QString) (hk : k ∈ rowIdAliases s.context) :
    occurrences [⟨.OTHER, qtext k⟩]
      (columnsOf (outerColumns env (exec env s).2.context)) = 1 ∧
    projections (qtext k) (columnsOf (outerColumns env (exec env s).2.context)) = 1 ∧
    (∀ c ∈ columnsOf (outerColumns env (exec env s).2.context),
      projectedAlias c = some (qtext k) → c = [⟨.OTHER, qtext k⟩]) ∧
    (∀ rc ∈ (exec env s).2.context.resultColumns, ∀ used : List String,
      qtext rc.queryExecutorAlias ≠ qtext k ∧
      (isNull (baseColName rc) = false →
        scanColName used (qtext rc.column) (used.length + 1) 1 (qtext (baseColName rc))
          ≠ qtext k)) := by
  obtain ⟨h1, h2, _⟩ := exec_success env s sel hsel hx hok
  have hstored : ∀ rc ∈ storedColumns env (s.rowIdColNames ++ rowIdAliases s.context)
      s.context s.context.colNameSeq (env.resolve s.context.dbNameToAttach sel).columns,
      ∀ used : List String,
        qtext rc.queryExecutorAlias ≠ qtext k ∧
        (isNull (baseColName rc) = false →
          scanColName used (qtext rc.column) (used.length + 1) 1 (qtext (baseColName rc))
            ≠ qtext k) := by
    intro rc hrc used
    obtain ⟨col, _, m, hm, hrow, rfl⟩ := storedColumns_mem env _ _ _ _ rc hrc
    exact stored_names_ne env s.context s.rowIdColNames s.context.colNameSeq m hm col k hk
      hcolon hfresh hrow used
  have hentries : ∀ c ∈ resultColumnEntries env []
      (storedColumns env (s.rowIdColNames ++ rowIdAliases s.context) s.context
        s.context.colNameSeq (env.resolve s.context.dbNameToAttach sel).columns),
      projectedAlias c ≠ some (qtext k) := by
    intro c hc hp
    obtain ⟨rc, hrc, u, rfl⟩ := resultColumnEntries_mem env _ _ _ hc
    rw [projectedAlias_columnTokens] at hp
    exact (hstored rc hrc u).1 (by simpa using hp)
  have hmap : (rowIdAliases s.context).map (fun a => [(⟨.OTHER, qtext a⟩ : Token)]) =
      ((rowIdAliases s.context).map qtext).map (fun t => [(⟨.OTHER, t⟩ : Token)]) := by
    simp
  have hmem : qtext k ∈ (rowIdAliases s.context).map qtext :=
    List.mem_map.mpr ⟨k, hk, rfl⟩
  rw [columnsOf_outerColumns, rowIdAliases_congr h1, h2, hempty, List.nil_append]
  refine ⟨?_, ?_, ?_, hstored⟩
  · rw [occurrences_append]
    have hinj : Function.Injective (fun t : String => [(⟨.OTHER, t⟩ : Token)]) := by
      intro a b h; simpa using h
    have hfirst : occurrences [⟨.OTHER, qtext k⟩]
        ((rowIdAliases s.context).map (fun a => [(⟨.OTHER, qtext a⟩ : Token)])) = 1 := by
      rw [hmap]
      exact occurrences_of_nodup _ _ (hkeys.map hinj) (List.mem_map.mpr ⟨qtext k, hmem, rfl⟩)
    have hsecond : occurrences [⟨.OTHER, qtext k⟩] (resultColumnEntries env []
        (storedColumns env (s.rowIdColNames ++ rowIdAliases s.context) s.context
          s.context.colNameSeq (env.resolve s.context.dbNameToAttach sel).columns)) = 0 := by
      apply occurrences_of_not_mem
      intro hin
      exact hentries _ hin (by simp [projectedAlias])
    rw [hfirst, hsecond]
  · rw [projections_append, hmap, projections_bare _ _ hkeys hmem,
      projections_of_none _ _ hentries]
  · intro c hc hp
    rcases List.mem_append.mp hc with hc | hc
    · obtain ⟨a, _, rfl⟩ := List.mem_map.mp hc
      have : qtext a = qtext k := by simpa [projectedAlias] using hp
      rw [this]
    · exact absurd hp (hentries c hc)

/-- Witness for C5, amended: one upstream row-id alias `ResCol_0`, the alias counter at
1, and the resolver yields that alias, its duplicate `ResCol_0:1` and the columns `a`, `b`. -/
theorem row_id_alias_once_witness :
    occurrences [⟨.OTHER, qtext (some "ResCol_0")⟩]
      (columnsOf (outerColumns (sampleEnv [{ sampleColumn "t" "rowid" with alias_ := some "ResCol_0" },
        { sampleColumn "t" "rowid" with alias_ := some "ResCol_0:1" },
        sampleColumn "t" "a", sampleColumn "t" "b"])
      (exec (sampleEnv [{ sampleColumn "t" "rowid" with alias_ := some "ResCol_0" },
        { sampleColumn "t" "rowid" with alias_ := some "ResCol_0:1" },
        sampleColumn "t" "a", sampleColumn "t" "b"])
      (sampleStep [⟨[(some "ResCol_0", some "rowid")]⟩] 1)).2.context)) = 1 ∧
    projections (qtext (some "ResCol_0"))
      (columnsOf (outerColumns (sampleEnv [{ sampleColumn "t" "rowid" with alias_ := some "ResCol_0" },
        { sampleColumn "t" "rowid" with alias_ := some "ResCol_0:1" },
        sampleColumn "t" "a", sampleColumn "t" "b"])
      (exec (sampleEnv [{ sampleColumn "t" "rowid" with alias_ := some "ResCol_0" },
        { sampleColumn "t" "rowid" with alias_ := some "ResCol_0:1" },
        sampleColumn "t" "a", sampleColumn "t" "b"])
      (sampleStep [⟨[(some "ResCol_0", some "rowid")]⟩] 1)).2.context)) = 1 :=
  have h := row_id_alias_once
    (sampleEnv [{ sampleColumn "t" "rowid" with alias_ := some "ResCol_0" },
        { sampleColumn "t" "rowid" with alias_ := some "ResCol_0:1" },
        sampleColumn "t" "a", sampleColumn "t" "b"])
    (sampleStep [⟨[(some "ResCol_0", some "rowid")]⟩] 1) sampleSelect rfl rfl
    (by decide) rfl (by decide) (by decide)
    (by
      intro k hk n hn h
      have hk1 : k = some "ResCol_0" := by simpa [rowIdAliases, sampleStep, sampleContext,
        ResultRowIdColumn.keys] using hk
      subst hk1
      have h0 : "ResCol_" ++ toString 0 = "ResCol_" ++ toString n := h
      have := fresh_inj 0 n h0
      have hn1 : 1 ≤ n := hn
      omega)
    (some "ResCol_0") (by decide)
  ⟨h.1, h.2.1⟩

end QueryExecutorColumns
